import Mathlib

/-!
Verification of the vacantes backend (Express + SQLite/Postgres).

This file gives a shallow embedding of the persistence core of the
repository: the record table, the five CRUD route handlers on both the
embedded (SQLite) and networked (Postgres) backend, the startup schema
migrator, and the JSON serialization boundary used for the habilidades
and terna columns.  The JSON model covers the fragment of JSON produced
and consumed by this application: null, booleans, strings, arrays and
objects (floating-point numbers are outside the model).
-/

/-- Model of the JSON values handled at the habilidades and terna
boundary.  Numbers are omitted: the application stores lists of objects
with string fields, and JavaScript numbers are floating point, which is
outside this embedding. -/
inductive Json where
  | null : Json
  | bool : Bool → Json
  | str : String → Json
  | arr : List Json → Json
  | obj : List (String × Json) → Json

/-- JavaScript truthiness of a JSON value: null, false and the empty
string are falsy; arrays and objects are always truthy. -/
def Json.truthy : Json → Bool
  | .null => false
  | .bool b => b
  | .str s => !(s = "")
  | .arr _ => true
  | .obj _ => true

/-- Escaping of one character as performed by JSON.stringify on the
quote and backslash characters.  Control characters are assumed absent
(see jsonClean). -/
def escChar (c : Char) : List Char :=
  if c = '"' then ['\\', '"'] else if c = '\\' then ['\\', '\\'] else [c]

/-- Escape a whole character list. -/
def escList : List Char → List Char
  | [] => []
  | c :: cs => escChar c ++ escList cs

/-- Work items for the fuel-indexed serializer and parser: a single
value, a nonempty comma-joined array tail, or a nonempty comma-joined
object member tail. -/
inductive JTask where
  | v : Json → JTask
  | vs : List Json → JTask
  | ms : List (String × Json) → JTask

/-- Fuel-indexed JSON serializer, modelling JSON.stringify (which emits
no whitespace).  Structural recursion on the fuel keeps every
application kernel-reducible. -/
def strGo : Nat → JTask → List Char
  | 0, _ => []
  | _+1, .v .null => ['n', 'u', 'l', 'l']
  | _+1, .v (.bool true) => ['t', 'r', 'u', 'e']
  | _+1, .v (.bool false) => ['f', 'a', 'l', 's', 'e']
  | _+1, .v (.str s) => '"' :: escList s.data ++ ['"']
  | _+1, .v (.arr []) => ['[', ']']
  | f+1, .v (.arr (x :: xs)) => '[' :: strGo f (.vs (x :: xs)) ++ [']']
  | _+1, .v (.obj []) => ['\x7b', '\x7d']
  | f+1, .v (.obj (m :: ms)) => '\x7b' :: strGo f (.ms (m :: ms)) ++ ['\x7d']
  | _+1, .vs [] => []
  | f+1, .vs (x :: []) => strGo f (.v x)
  | f+1, .vs (x :: y :: tl) => strGo f (.v x) ++ ',' :: strGo f (.vs (y :: tl))
  | _+1, .ms [] => []
  | f+1, .ms ((k, v0) :: []) => '"' :: escList k.data ++ '"' :: ':' :: strGo f (.v v0)
  | f+1, .ms ((k, v0) :: m :: tl) =>
      ('"' :: escList k.data ++ '"' :: ':' :: strGo f (.v v0)) ++ ',' :: strGo f (.ms (m :: tl))

/-- Fuel adequate for serializing and parsing a task: one unit per
recursive step of strGo and of the parser. -/
def jsize : JTask → Nat
  | .v .null => 1
  | .v (.bool _) => 1
  | .v (.str _) => 1
  | .v (.arr []) => 1
  | .v (.arr (x :: xs)) => 1 + jsize (.vs (x :: xs))
  | .v (.obj []) => 1
  | .v (.obj (m :: ms)) => 1 + jsize (.ms (m :: ms))
  | .vs [] => 1
  | .vs (x :: []) => 1 + jsize (.v x)
  | .vs (x :: y :: tl) => 1 + jsize (.v x) + jsize (.vs (y :: tl))
  | .ms [] => 1
  | .ms ((_, v0) :: []) => 1 + jsize (.v v0)
  | .ms ((_, v0) :: m :: tl) => 1 + jsize (.v v0) + jsize (.ms (m :: tl))

/-- Serialize a JSON value to a string, modelling JSON.stringify. -/
def stringifyJson (v : Json) : String :=
  String.mk (strGo (jsize (.v v)) (.v v))

/-- String body parser: input follows an opening quote; returns the
decoded characters and the input after the closing quote.  Handles the
two escape sequences escChar produces. -/
def parseStrChars : List Char → Option (List Char × List Char)
  | [] => none
  | [c] => if c = '"' then some ([], []) else none
  | c :: e :: rest2 =>
    if c = '"' then some ([], e :: rest2)
    else if c = '\\' then
      (if e = '"' ∨ e = '\\' then (parseStrChars rest2).map (fun p => (e :: p.1, p.2)) else none)
    else (parseStrChars (e :: rest2)).map (fun p => (c :: p.1, p.2))

/-- Parser modes: a single value, array elements up to the closing
bracket, or object members up to the closing brace. -/
inductive PMode where
  | val : PMode
  | elems : PMode
  | members : PMode

/-- Fuel-indexed JSON parser, modelling JSON.parse on the whitespace
free output of JSON.stringify.  In elems and members mode the closing
bracket or brace is consumed. -/
def parseGo : Nat → PMode → List Char → Option (JTask × List Char)
  | 0, _, _ => none
  | _+1, .val, [] => none
  | f+1, .val, c :: rest =>
    if c = 'n' then
      match rest with
      | 'u' :: 'l' :: 'l' :: r => some (.v .null, r)
      | _ => none
    else if c = 't' then
      match rest with
      | 'r' :: 'u' :: 'e' :: r => some (.v (.bool true), r)
      | _ => none
    else if c = 'f' then
      match rest with
      | 'a' :: 'l' :: 's' :: 'e' :: r => some (.v (.bool false), r)
      | _ => none
    else if c = '"' then
      (parseStrChars rest).map (fun p => (.v (.str (String.mk p.1)), p.2))
    else if c = '[' then
      match rest with
      | [] => none
      | d :: r =>
        if d = ']' then some (.v (.arr []), r)
        else
          match parseGo f .elems (d :: r) with
          | some (.vs l, r2) => some (.v (.arr l), r2)
          | _ => none
    else if c = '\x7b' then
      match rest with
      | [] => none
      | d :: r =>
        if d = '\x7d' then some (.v (.obj []), r)
        else
          match parseGo f .members (d :: r) with
          | some (.ms l, r2) => some (.v (.obj l), r2)
          | _ => none
    else none
  | f+1, .elems, cs =>
    match parseGo f .val cs with
    | some (.v j, c :: r2) =>
      if c = ',' then
        match parseGo f .elems r2 with
        | some (.vs l, r3) => some (.vs (j :: l), r3)
        | _ => none
      else if c = ']' then some (.vs [j], r2)
      else none
    | _ => none
  | _+1, .members, [] => none
  | f+1, .members, c :: rest =>
    if c = '"' then
      match parseStrChars rest with
      | none => none
      | some (k, r1) =>
        match r1 with
        | [] => none
        | c2 :: r2 =>
          if c2 = ':' then
            match parseGo f .val r2 with
            | some (.v j, c3 :: r4) =>
              if c3 = ',' then
                match parseGo f .members r4 with
                | some (.ms l, r5) => some (.ms ((String.mk k, j) :: l), r5)
                | _ => none
              else if c3 = '\x7d' then some (.ms [(String.mk k, j)], r4)
              else none
            | _ => none
          else none
    else none

/-- Parse a whole string as one JSON value, modelling JSON.parse;
none models the exception thrown on malformed input. -/
def parseJson (s : String) : Option Json :=
  match parseGo (s.data.length + 1) .val s.data with
  | some (.v j, []) => some j
  | _ => none

/-- Every serializer/parser task has positive fuel requirement. -/
theorem jsize_pos (t : JTask) : 1 ≤ jsize t := by
  match t with
  | .v .null => simp [jsize]
  | .v (.bool b) => simp [jsize]
  | .v (.str s) => simp [jsize]
  | .v (.arr []) => simp [jsize]
  | .v (.arr (x :: xs)) => simp [jsize]
  | .v (.obj []) => simp [jsize]
  | .v (.obj (m :: ms)) => simp [jsize]
  | .vs [] => simp [jsize]
  | .vs (x :: []) => simp [jsize]
  | .vs (x :: y :: tl) => simp [jsize]; omega
  | .ms [] => simp [jsize]
  | .ms ((k, v0) :: []) => simp [jsize]
  | .ms ((k, v0) :: m :: tl) => simp [jsize]; omega

/-- Parsing the escaped form of a character list up to a closing quote
recovers the characters and the remaining input. -/
theorem parseStrChars_escList (cs rest : List Char) :
    parseStrChars (escList cs ++ '"' :: rest) = some (cs, rest) := by
  induction cs with
  | nil =>
    cases rest with
    | nil => rfl
    | cons e r2 => rfl
  | cons c cs ih =>
    by_cases h1 : c = '"'
    · subst h1
      simp only [escList, escChar, if_pos rfl, List.cons_append, List.append_assoc]
      simp [parseStrChars, ih]
    · by_cases h2 : c = '\\'
      · subst h2
        simp only [escList, escChar, List.cons_append, List.append_assoc]
        norm_num
        simp [parseStrChars, ih]
      · rcases hsplit : escList cs ++ '"' :: rest with _ | ⟨e, rest2⟩
        · exact absurd hsplit (by simp)
        · rw [hsplit] at ih
          simp only [escList, escChar, if_neg h1, if_neg h2, List.cons_append, List.nil_append,
            hsplit]
          simp [parseStrChars, h1, h2, ih]

/-- Parser step on a null literal. -/
theorem parseGo_null (f : Nat) (r : List Char) :
    parseGo (f+1) .val ('n' :: 'u' :: 'l' :: 'l' :: r) = some (.v .null, r) := rfl

/-- Parser step on a true literal. -/
theorem parseGo_true (f : Nat) (r : List Char) :
    parseGo (f+1) .val ('t' :: 'r' :: 'u' :: 'e' :: r) = some (.v (.bool true), r) := rfl

/-- Parser step on a false literal. -/
theorem parseGo_false (f : Nat) (r : List Char) :
    parseGo (f+1) .val ('f' :: 'a' :: 'l' :: 's' :: 'e' :: r) = some (.v (.bool false), r) := rfl

/-- Parser step on an opening quote. -/
theorem parseGo_quote (f : Nat) (r : List Char) :
    parseGo (f+1) .val ('"' :: r) =
      (parseStrChars r).map (fun p => (.v (.str (String.mk p.1)), p.2)) := rfl

/-- Parser step on an opening bracket followed by at least one character. -/
theorem parseGo_lbrack (f : Nat) (d : Char) (r : List Char) :
    parseGo (f+1) .val ('[' :: d :: r) =
      (if d = ']' then some (.v (.arr []), r)
       else
         match parseGo f .elems (d :: r) with
         | some (.vs l, r2) => some (.v (.arr l), r2)
         | _ => none) := rfl

/-- Parser step on an opening brace followed by at least one character. -/
theorem parseGo_lbrace (f : Nat) (d : Char) (r : List Char) :
    parseGo (f+1) .val ('\x7b' :: d :: r) =
      (if d = '\x7d' then some (.v (.obj []), r)
       else
         match parseGo f .members (d :: r) with
         | some (.ms l, r2) => some (.v (.obj l), r2)
         | _ => none) := rfl

/-- Parser step in array-elements mode. -/
theorem parseGo_elemsStep (f : Nat) (cs : List Char) :
    parseGo (f+1) .elems cs =
      (match parseGo f .val cs with
       | some (.v j, c :: r2) =>
         if c = ',' then
           match parseGo f .elems r2 with
           | some (.vs l, r3) => some (.vs (j :: l), r3)
           | _ => none
         else if c = ']' then some (.vs [j], r2)
         else none
       | _ => none) := rfl

/-- Parser step in object-members mode on an opening quote. -/
theorem parseGo_membersStep (f : Nat) (rest : List Char) :
    parseGo (f+1) .members ('"' :: rest) =
      (match parseStrChars rest with
       | none => none
       | some (k, r1) =>
         match r1 with
         | [] => none
         | c2 :: r2 =>
           if c2 = ':' then
             match parseGo f .val r2 with
             | some (.v j, c3 :: r4) =>
               if c3 = ',' then
                 match parseGo f .members r4 with
                 | some (.ms l, r5) => some (.ms ((String.mk k, j) :: l), r5)
                 | _ => none
               else if c3 = '\x7d' then some (.ms [(String.mk k, j)], r4)
               else none
             | _ => none
           else none) := rfl

/-- The serialization of a value is nonempty and starts with one of the
six value-leading characters, none of which is a closing bracket, a
closing brace or a comma. -/
theorem strGo_head (f : Nat) (v : Json) (h : jsize (.v v) ≤ f) :
    ∃ c cs, strGo f (.v v) = c :: cs ∧
      (c = 'n' ∨ c = 't' ∨ c = 'f' ∨ c = '"' ∨ c = '[' ∨ c = '\x7b') := by
  have hf : 1 ≤ f := le_trans (jsize_pos _) h
  obtain ⟨g, rfl⟩ : ∃ g, f = g + 1 := ⟨f - 1, by omega⟩
  match v with
  | .null => exact ⟨'n', _, rfl, by simp⟩
  | .bool true => exact ⟨'t', _, rfl, by simp⟩
  | .bool false => exact ⟨'f', _, rfl, by simp⟩
  | .str s => exact ⟨'"', _, rfl, by simp⟩
  | .arr [] => exact ⟨'[', _, rfl, by simp⟩
  | .arr (x :: xs) => exact ⟨'[', _, rfl, by simp⟩
  | .obj [] => exact ⟨'\x7b', _, rfl, by simp⟩
  | .obj (m :: ms) => exact ⟨'\x7b', _, rfl, by simp⟩

/-- The serialization of a nonempty elements task starts with a
value-leading character. -/
theorem strGo_vs_head (f : Nat) (x : Json) (xs : List Json) (h : jsize (.vs (x :: xs)) ≤ f) :
    ∃ c cs, strGo f (.vs (x :: xs)) = c :: cs ∧
      (c = 'n' ∨ c = 't' ∨ c = 'f' ∨ c = '"' ∨ c = '[' ∨ c = '\x7b') := by
  have hf : 1 ≤ f := le_trans (jsize_pos _) h
  obtain ⟨g, rfl⟩ : ∃ g, f = g + 1 := ⟨f - 1, by omega⟩
  match xs with
  | [] =>
    have hx : jsize (.v x) ≤ g := by
      have := h; simp [jsize] at this; omega
    exact strGo_head g x hx
  | y :: tl =>
    have hx : jsize (.v x) ≤ g := by
      have h1 := jsize_pos (.vs (y :: tl))
      have := h; simp [jsize] at this; omega
    obtain ⟨c, cs, hc, hmem⟩ := strGo_head g x hx
    refine ⟨c, cs ++ ',' :: strGo g (.vs (y :: tl)), ?_, hmem⟩
    show strGo g (.v x) ++ ',' :: strGo g (.vs (y :: tl)) = _
    rw [hc]; rfl

/-- The serialization of a nonempty members task starts with a quote. -/
theorem strGo_ms_head (f : Nat) (m : String × Json) (ms : List (String × Json))
    (h : jsize (.ms (m :: ms)) ≤ f) :
    ∃ cs, strGo f (.ms (m :: ms)) = '"' :: cs := by
  have hf : 1 ≤ f := le_trans (jsize_pos _) h
  obtain ⟨g, rfl⟩ : ∃ g, f = g + 1 := ⟨f - 1, by omega⟩
  match m, ms with
  | (k, v0), [] => exact ⟨_, rfl⟩
  | (k, v0), m2 :: tl => exact ⟨_, rfl⟩

/-- Round-trip of the serializer and parser, by induction on total
size: parsing a serialized value (with any adequate fuel) consumes
exactly the serialized characters and returns the value. -/
theorem parseGo_strGo : ∀ n : Nat,
    (∀ v : Json, jsize (.v v) ≤ n → ∀ fs fp rest, jsize (.v v) ≤ fs → jsize (.v v) ≤ fp →
      parseGo fp .val (strGo fs (.v v) ++ rest) = some (.v v, rest)) ∧
    (∀ x xs, jsize (.vs (x :: xs)) ≤ n → ∀ fs fp rest,
      jsize (.vs (x :: xs)) ≤ fs → jsize (.vs (x :: xs)) ≤ fp →
      parseGo fp .elems (strGo fs (.vs (x :: xs)) ++ ']' :: rest) = some (.vs (x :: xs), rest)) ∧
    (∀ m ms, jsize (.ms (m :: ms)) ≤ n → ∀ fs fp rest,
      jsize (.ms (m :: ms)) ≤ fs → jsize (.ms (m :: ms)) ≤ fp →
      parseGo fp .members (strGo fs (.ms (m :: ms)) ++ '\x7d' :: rest)
        = some (.ms (m :: ms), rest)) := by
  intro n
  induction n with
  | zero =>
    refine ⟨?_, ?_, ?_⟩
    · intro v h
      have := jsize_pos (.v v); omega
    · intro x xs h
      have := jsize_pos (.vs (x :: xs)); omega
    · intro m ms h
      have := jsize_pos (.ms (m :: ms)); omega
  | succ n ih =>
    obtain ⟨ihv, ihe, ihm⟩ := ih
    refine ⟨?_, ?_, ?_⟩
    · intro v h fs fp rest hfs hfp
      obtain ⟨a, rfl⟩ : ∃ a, fs = a + 1 :=
        ⟨fs - 1, by have := le_trans (jsize_pos (.v v)) hfs; omega⟩
      obtain ⟨b, rfl⟩ : ∃ b, fp = b + 1 :=
        ⟨fp - 1, by have := le_trans (jsize_pos (.v v)) hfp; omega⟩
      match v with
      | .null => exact parseGo_null b rest
      | .bool true => exact parseGo_true b rest
      | .bool false => exact parseGo_false b rest
      | .str s =>
        rw [show strGo (a+1) (.v (.str s)) = '"' :: escList s.data ++ ['"'] from rfl]
        simp only [List.cons_append, List.append_assoc, List.singleton_append, List.nil_append]
        rw [parseGo_quote, parseStrChars_escList]
        rfl
      | .arr [] =>
        rw [show strGo (a+1) (.v (.arr [])) = ['[', ']'] from rfl]
        rw [show ((['[', ']'] : List Char) ++ rest) = '[' :: ']' :: rest from rfl]
        rw [parseGo_lbrack]
        simp
      | .arr (x :: xs) =>
        have hsz : jsize (.v (.arr (x :: xs))) = 1 + jsize (.vs (x :: xs)) := by
          simp [jsize]
        have h1 : jsize (.vs (x :: xs)) ≤ a := by omega
        have h2 : jsize (.vs (x :: xs)) ≤ b := by omega
        have h3 : jsize (.vs (x :: xs)) ≤ n := by omega
        obtain ⟨c, cs, hc, hmem⟩ := strGo_vs_head a x xs h1
        have hne : ¬ c = ']' := by
          rcases hmem with rfl | rfl | rfl | rfl | rfl | rfl <;> decide
        rw [show strGo (a+1) (.v (.arr (x :: xs))) = '[' :: strGo a (.vs (x :: xs)) ++ [']']
          from rfl]
        rw [hc]
        simp only [List.cons_append, List.append_assoc, List.singleton_append, List.nil_append]
        rw [parseGo_lbrack, if_neg hne]
        have hback : c :: (cs ++ ']' :: rest) = strGo a (.vs (x :: xs)) ++ ']' :: rest := by
          rw [hc]; simp
        rw [hback, ihe x xs h3 a b rest h1 h2]
      | .obj [] =>
        rw [show strGo (a+1) (.v (.obj [])) = ['\x7b', '\x7d'] from rfl]
        rw [show ((['\x7b', '\x7d'] : List Char) ++ rest) = '\x7b' :: '\x7d' :: rest from rfl]
        rw [parseGo_lbrace]
        simp
      | .obj (m :: ms) =>
        have hsz : jsize (.v (.obj (m :: ms))) = 1 + jsize (.ms (m :: ms)) := by
          simp [jsize]
        have h1 : jsize (.ms (m :: ms)) ≤ a := by omega
        have h2 : jsize (.ms (m :: ms)) ≤ b := by omega
        have h3 : jsize (.ms (m :: ms)) ≤ n := by omega
        obtain ⟨cs, hc⟩ := strGo_ms_head a m ms h1
        have hne : ¬ ('"' : Char) = '\x7d' := by decide
        rw [show strGo (a+1) (.v (.obj (m :: ms)))
            = '\x7b' :: strGo a (.ms (m :: ms)) ++ ['\x7d'] from rfl]
        rw [hc]
        simp only [List.cons_append, List.append_assoc, List.singleton_append, List.nil_append]
        rw [parseGo_lbrace, if_neg hne]
        have hback : '"' :: (cs ++ '\x7d' :: rest) = strGo a (.ms (m :: ms)) ++ '\x7d' :: rest := by
          rw [hc]; simp
        rw [hback, ihm m ms h3 a b rest h1 h2]
    · intro x xs h fs fp rest hfs hfp
      obtain ⟨a, rfl⟩ : ∃ a, fs = a + 1 :=
        ⟨fs - 1, by have := le_trans (jsize_pos (.vs (x :: xs))) hfs; omega⟩
      obtain ⟨b, rfl⟩ : ∃ b, fp = b + 1 :=
        ⟨fp - 1, by have := le_trans (jsize_pos (.vs (x :: xs))) hfp; omega⟩
      match xs with
      | [] =>
        have hsz : jsize (.vs [x]) = 1 + jsize (.v x) := by simp [jsize]
        have hx_n : jsize (.v x) ≤ n := by omega
        have hx_a : jsize (.v x) ≤ a := by omega
        have hx_b : jsize (.v x) ≤ b := by omega
        rw [show strGo (a+1) (.vs [x]) = strGo a (.v x) from rfl]
        rw [parseGo_elemsStep, ihv x hx_n a b (']' :: rest) hx_a hx_b]
        simp
      | y :: tl =>
        have hsz : jsize (.vs (x :: y :: tl)) = 1 + jsize (.v x) + jsize (.vs (y :: tl)) := by
          simp [jsize]
        have hx_n : jsize (.v x) ≤ n := by
          have := jsize_pos (.vs (y :: tl)); omega
        have hx_a : jsize (.v x) ≤ a := by
          have := jsize_pos (.vs (y :: tl)); omega
        have hx_b : jsize (.v x) ≤ b := by
          have := jsize_pos (.vs (y :: tl)); omega
        have hyt_n : jsize (.vs (y :: tl)) ≤ n := by
          have := jsize_pos (.v x); omega
        have hyt_a : jsize (.vs (y :: tl)) ≤ a := by
          have := jsize_pos (.v x); omega
        have hyt_b : jsize (.vs (y :: tl)) ≤ b := by
          have := jsize_pos (.v x); omega
        rw [show strGo (a+1) (.vs (x :: y :: tl))
            = strGo a (.v x) ++ ',' :: strGo a (.vs (y :: tl)) from rfl]
        simp only [List.cons_append, List.append_assoc, List.nil_append]
        rw [parseGo_elemsStep,
          ihv x hx_n a b (',' :: (strGo a (.vs (y :: tl)) ++ ']' :: rest)) hx_a hx_b]
        have hE := ihe y tl hyt_n a b rest hyt_a hyt_b
        simp [hE]
    · intro m ms h fs fp rest hfs hfp
      obtain ⟨a, rfl⟩ : ∃ a, fs = a + 1 :=
        ⟨fs - 1, by have := le_trans (jsize_pos (.ms (m :: ms))) hfs; omega⟩
      obtain ⟨b, rfl⟩ : ∃ b, fp = b + 1 :=
        ⟨fp - 1, by have := le_trans (jsize_pos (.ms (m :: ms))) hfp; omega⟩
      match m, ms with
      | (k, v0), [] =>
        have hsz : jsize (.ms [(k, v0)]) = 1 + jsize (.v v0) := by simp [jsize]
        have hv_n : jsize (.v v0) ≤ n := by omega
        have hv_a : jsize (.v v0) ≤ a := by omega
        have hv_b : jsize (.v v0) ≤ b := by omega
        rw [show strGo (a+1) (.ms [(k, v0)])
            = '"' :: escList k.data ++ '"' :: ':' :: strGo a (.v v0) from rfl]
        simp only [List.cons_append, List.append_assoc, List.nil_append]
        rw [parseGo_membersStep, parseStrChars_escList]
        have hV := ihv v0 hv_n a b ('\x7d' :: rest) hv_a hv_b
        simp [hV]
      | (k, v0), m2 :: tl =>
        have hsz : jsize (.ms ((k, v0) :: m2 :: tl))
            = 1 + jsize (.v v0) + jsize (.ms (m2 :: tl)) := by simp [jsize]
        have hv_n : jsize (.v v0) ≤ n := by
          have := jsize_pos (.ms (m2 :: tl)); omega
        have hv_a : jsize (.v v0) ≤ a := by
          have := jsize_pos (.ms (m2 :: tl)); omega
        have hv_b : jsize (.v v0) ≤ b := by
          have := jsize_pos (.ms (m2 :: tl)); omega
        have hmt_n : jsize (.ms (m2 :: tl)) ≤ n := by
          have := jsize_pos (.v v0); omega
        have hmt_a : jsize (.ms (m2 :: tl)) ≤ a := by
          have := jsize_pos (.v v0); omega
        have hmt_b : jsize (.ms (m2 :: tl)) ≤ b := by
          have := jsize_pos (.v v0); omega
        rw [show strGo (a+1) (.ms ((k, v0) :: m2 :: tl))
            = ('"' :: escList k.data ++ '"' :: ':' :: strGo a (.v v0))
              ++ ',' :: strGo a (.ms (m2 :: tl)) from rfl]
        simp only [List.cons_append, List.append_assoc, List.nil_append]
        rw [parseGo_membersStep, parseStrChars_escList]
        have hV := ihv v0 hv_n a b
          (',' :: (strGo a (.ms (m2 :: tl)) ++ '\x7d' :: rest)) hv_a hv_b
        have hM := ihm m2 tl hmt_n a b rest hmt_a hmt_b
        simp [hV, hM]

/-- Fuel needed by the parser is bounded by the length of the
serialized output (strictly for single values). -/
theorem jsize_le_strGo_len : ∀ n : Nat,
    (∀ v : Json, ∀ fs, jsize (.v v) ≤ n → jsize (.v v) ≤ fs →
      jsize (.v v) ≤ (strGo fs (.v v)).length) ∧
    (∀ x xs, ∀ fs, jsize (.vs (x :: xs)) ≤ n → jsize (.vs (x :: xs)) ≤ fs →
      jsize (.vs (x :: xs)) ≤ (strGo fs (.vs (x :: xs))).length + 1) ∧
    (∀ m ms, ∀ fs, jsize (.ms (m :: ms)) ≤ n → jsize (.ms (m :: ms)) ≤ fs →
      jsize (.ms (m :: ms)) ≤ (strGo fs (.ms (m :: ms))).length + 1) := by
  intro n
  induction n with
  | zero =>
    refine ⟨?_, ?_, ?_⟩
    · intro v fs h
      have := jsize_pos (.v v); omega
    · intro x xs fs h
      have := jsize_pos (.vs (x :: xs)); omega
    · intro m ms fs h
      have := jsize_pos (.ms (m :: ms)); omega
  | succ n ih =>
    obtain ⟨ihv, ihe, ihm⟩ := ih
    refine ⟨?_, ?_, ?_⟩
    · intro v fs h hfs
      obtain ⟨a, rfl⟩ : ∃ a, fs = a + 1 :=
        ⟨fs - 1, by have := le_trans (jsize_pos (.v v)) hfs; omega⟩
      match v with
      | .null => simp [jsize, strGo]
      | .bool true => simp [jsize, strGo]
      | .bool false => simp [jsize, strGo]
      | .str s => simp [jsize, strGo]
      | .arr [] => simp [jsize, strGo]
      | .arr (x :: xs) =>
        have hsz : jsize (.v (.arr (x :: xs))) = 1 + jsize (.vs (x :: xs)) := by
          simp [jsize]
        have h3 : jsize (.vs (x :: xs)) ≤ n := by omega
        have h1 : jsize (.vs (x :: xs)) ≤ a := by omega
        have hE := ihe x xs a h3 h1
        rw [show strGo (a+1) (.v (.arr (x :: xs))) = '[' :: strGo a (.vs (x :: xs)) ++ [']']
          from rfl]
        simp only [List.length_cons, List.length_append, List.length_singleton]
        omega
      | .obj [] => simp [jsize, strGo]
      | .obj (m :: ms) =>
        have hsz : jsize (.v (.obj (m :: ms))) = 1 + jsize (.ms (m :: ms)) := by
          simp [jsize]
        have h3 : jsize (.ms (m :: ms)) ≤ n := by omega
        have h1 : jsize (.ms (m :: ms)) ≤ a := by omega
        have hM := ihm m ms a h3 h1
        rw [show strGo (a+1) (.v (.obj (m :: ms)))
            = '\x7b' :: strGo a (.ms (m :: ms)) ++ ['\x7d'] from rfl]
        simp only [List.length_cons, List.length_append, List.length_singleton]
        omega
    · intro x xs fs h hfs
      obtain ⟨a, rfl⟩ : ∃ a, fs = a + 1 :=
        ⟨fs - 1, by have := le_trans (jsize_pos (.vs (x :: xs))) hfs; omega⟩
      match xs with
      | [] =>
        have hsz : jsize (.vs [x]) = 1 + jsize (.v x) := by simp [jsize]
        have hx_n : jsize (.v x) ≤ n := by omega
        have hx_a : jsize (.v x) ≤ a := by omega
        have hV := ihv x a hx_n hx_a
        rw [show strGo (a+1) (.vs [x]) = strGo a (.v x) from rfl]
        omega
      | y :: tl =>
        have hsz : jsize (.vs (x :: y :: tl)) = 1 + jsize (.v x) + jsize (.vs (y :: tl)) := by
          simp [jsize]
        have hx_n : jsize (.v x) ≤ n := by
          have := jsize_pos (.vs (y :: tl)); omega
        have hx_a : jsize (.v x) ≤ a := by
          have := jsize_pos (.vs (y :: tl)); omega
        have hyt_n : jsize (.vs (y :: tl)) ≤ n := by
          have := jsize_pos (.v x); omega
        have hyt_a : jsize (.vs (y :: tl)) ≤ a := by
          have := jsize_pos (.v x); omega
        have hV := ihv x a hx_n hx_a
        have hE := ihe y tl a hyt_n hyt_a
        rw [show strGo (a+1) (.vs (x :: y :: tl))
            = strGo a (.v x) ++ ',' :: strGo a (.vs (y :: tl)) from rfl]
        simp only [List.length_append, List.length_cons]
        omega
    · intro m ms fs h hfs
      obtain ⟨a, rfl⟩ : ∃ a, fs = a + 1 :=
        ⟨fs - 1, by have := le_trans (jsize_pos (.ms (m :: ms))) hfs; omega⟩
      match m, ms with
      | (k, v0), [] =>
        have hsz : jsize (.ms [(k, v0)]) = 1 + jsize (.v v0) := by simp [jsize]
        have hv_n : jsize (.v v0) ≤ n := by omega
        have hv_a : jsize (.v v0) ≤ a := by omega
        have hV := ihv v0 a hv_n hv_a
        rw [show strGo (a+1) (.ms [(k, v0)])
            = '"' :: escList k.data ++ '"' :: ':' :: strGo a (.v v0) from rfl]
        simp only [List.length_cons, List.length_append]
        omega
      | (k, v0), m2 :: tl =>
        have hsz : jsize (.ms ((k, v0) :: m2 :: tl))
            = 1 + jsize (.v v0) + jsize (.ms (m2 :: tl)) := by simp [jsize]
        have hv_n : jsize (.v v0) ≤ n := by
          have := jsize_pos (.ms (m2 :: tl)); omega
        have hv_a : jsize (.v v0) ≤ a := by
          have := jsize_pos (.ms (m2 :: tl)); omega
        have hmt_n : jsize (.ms (m2 :: tl)) ≤ n := by
          have := jsize_pos (.v v0); omega
        have hmt_a : jsize (.ms (m2 :: tl)) ≤ a := by
          have := jsize_pos (.v v0); omega
        have hV := ihv v0 a hv_n hv_a
        have hM := ihm m2 tl a hmt_n hmt_a
        rw [show strGo (a+1) (.ms ((k, v0) :: m2 :: tl))
            = ('"' :: escList k.data ++ '"' :: ':' :: strGo a (.v v0))
              ++ ',' :: strGo a (.ms (m2 :: tl)) from rfl]
        simp only [List.length_cons, List.length_append]
        omega

/-- Round-trip at the string level: JSON.parse of JSON.stringify of any
modelled value yields back the value. -/
theorem parseJson_stringifyJson (v : Json) : parseJson (stringifyJson v) = some v := by
  have hlen := (jsize_le_strGo_len (jsize (.v v))).1 v (jsize (.v v)) le_rfl le_rfl
  have h := (parseGo_strGo (jsize (.v v))).1 v le_rfl (jsize (.v v))
    ((strGo (jsize (.v v)) (.v v)).length + 1) [] le_rfl (by omega)
  simp only [List.append_nil] at h
  unfold parseJson stringifyJson
  rw [show (String.mk (strGo (jsize (.v v)) (.v v))).data
      = strGo (jsize (.v v)) (.v v) from rfl]
  rw [h]

/-- The serialization of a value is never the empty string. -/
theorem stringifyJson_ne_empty (v : Json) : ¬ stringifyJson v = "" := by
  obtain ⟨c, cs, hc, _⟩ := strGo_head (jsize (.v v)) v le_rfl
  unfold stringifyJson
  rw [hc]
  intro hcon
  have : (String.mk (c :: cs)).data = ("" : String).data := by rw [hcon]
  simp at this

/-- Calendar date supplied by the environment (the value of new Date()
at the time a handler runs). -/
structure Date where
  year : Nat
  month : Nat
  day : Nat
deriving Repr, DecidableEq

/-- JavaScript String.prototype.padStart with a single pad character:
pads on the left up to the target length, never truncates. -/
def padStart (s : String) (n : Nat) (c : Char) : String :=
  String.mk (List.replicate (n - s.data.length) c) ++ s

/-- Helper pad4 from the source: zero-pad a number to at least four
digits. -/
def pad4 (n : Nat) : String :=
  padStart (toString n) 4 '0'

/-- Helper hoyYYYYMMDD from the source: the date as YYYYMMDD with the
year printed as-is and month and day zero-padded to two digits. -/
def hoyYYYYMMDD (d : Date) : String :=
  toString d.year ++ padStart (toString d.month) 2 '0' ++ padStart (toString d.day) 2 '0'

/-- Helper hoyISODate from the source: the date as YYYY-MM-DD. -/
def hoyISODate (d : Date) : String :=
  toString d.year ++ "-" ++ padStart (toString d.month) 2 '0' ++ "-"
    ++ padStart (toString d.day) 2 '0'

/-- Values appearing in JSON HTTP response bodies: null, a number (the
numeric id), a string, or a structured JSON value from a habilidades or
terna column. -/
inductive RVal where
  | null : RVal
  | num : Nat → RVal
  | str : String → RVal
  | json : Json → RVal

/-- A JavaScript object in a response body: an ordered list of
key-value pairs. -/
abbrev JsObj := List (String × RVal)

/-- Property read on a JavaScript object. -/
def getKey (o : JsObj) (k : String) : Option RVal :=
  (o.find? (fun p => p.1 = k)).map (fun p => p.2)

/-- Property overwrite as performed by a spread with an override: if
the key exists its value is replaced in place, otherwise the pair is
appended at the end (JavaScript object key order). -/
def setKey (o : JsObj) (k : String) (v : RVal) : JsObj :=
  if o.any (fun p => p.1 = k) then
    o.map (fun p => if p.1 = k then (k, v) else p)
  else o ++ [(k, v)]

/-- Row of the SQLite vacantes table.  Every column except the integer
primary key is a nullable TEXT column; habilidades and terna hold
serialized JSON text. -/
structure SqliteRow where
  id : Nat
  nombre : Option String
  area : Option String
  requisitor : Option String
  tipoProceso : Option String
  tipo : Option String
  prioridad : Option String
  fecha : Option String
  comentarios : Option String
  estatus : Option String
  folio : Option String
  fechaInicio : Option String
  habilidades : Option String
  terna : Option String
deriving Repr, DecidableEq

/-- SQLite database state: the rows plus the AUTOINCREMENT counter
(ids are monotonically increasing and never reused). -/
structure SqliteDB where
  rows : List SqliteRow
  nextId : Nat
deriving Repr, DecidableEq

/-- Row of the Postgres vacantes table.  Unquoted identifiers are
lower-cased by Postgres, so the stored column names are lower-case;
habilidades and terna are JSONB columns holding structured values. -/
structure PgRow where
  id : Nat
  folio : Option String
  nombre : Option String
  area : Option String
  requisitor : Option String
  tipoproceso : Option String
  tipo : Option String
  prioridad : Option String
  fechainicio : Option String
  comentarios : Option String
  estatus : Option String
  habilidades : Option Json
  terna : Option Json

/-- Postgres database state: the rows plus the id sequence value (the
next SERIAL id is seq + 1). -/
structure PgDB where
  rows : List PgRow
  seq : Nat

/-- HTTP outcome of a handler: a 200 JSON object, a 200 JSON array of
objects, a 404, a 500, or an uncaught exception in a driver callback
(no response is sent). -/
inductive HttpResult where
  | okObj : JsObj → HttpResult
  | okArr : List JsObj → HttpResult
  | notFound : String → HttpResult
  | serverError : String → HttpResult
  | crash : HttpResult

/-- HTTP status code of an outcome (0 when no response is sent). -/
def HttpResult.status : HttpResult → Nat
  | .okObj _ => 200
  | .okArr _ => 200
  | .notFound _ => 404
  | .serverError _ => 500
  | .crash => 0

/-- Find the row a WHERE id = ? clause selects. -/
def findByKey {α : Type} (key : α → Nat) (rows : List α) (i : Nat) : Option α :=
  rows.find? (fun r => key r == i)

/-- Insert into a list sorted by descending key, keeping it sorted:
models the backend ORDER BY id DESC result order. -/
def insertDescBy {α : Type} (key : α → Nat) (x : α) : List α → List α
  | [] => [x]
  | y :: ys => if key y ≤ key x then x :: y :: ys else y :: insertDescBy key x ys

/-- Sort by descending key (insertion sort): the row order produced by
ORDER BY id DESC. -/
def orderByIdDesc {α : Type} (key : α → Nat) : List α → List α
  | [] => []
  | x :: xs => insertDescBy key x (orderByIdDesc key xs)

/-- Inserting permutes. -/
theorem insertDescBy_perm {α : Type} (key : α → Nat) (x : α) (l : List α) :
    List.Perm (insertDescBy key x l) (x :: l) := by
  induction l with
  | nil => simp [insertDescBy]
  | cons y ys ih =>
    by_cases h : key y ≤ key x
    · simp [insertDescBy, h]
    · simp only [insertDescBy, if_neg h]
      exact ((ih.cons y).trans (List.Perm.swap x y ys))

/-- Sorting permutes: the ORDER BY id DESC result contains exactly the
table rows. -/
theorem orderByIdDesc_perm {α : Type} (key : α → Nat) (l : List α) :
    List.Perm (orderByIdDesc key l) l := by
  induction l with
  | nil => simp [orderByIdDesc]
  | cons x xs ih =>
    exact (insertDescBy_perm key x (orderByIdDesc key xs)).trans (ih.cons x)

/-- Inserting preserves descending order. -/
theorem insertDescBy_pairwise {α : Type} (key : α → Nat) (x : α) (l : List α)
    (h : l.Pairwise (fun a b => key b ≤ key a)) :
    (insertDescBy key x l).Pairwise (fun a b => key b ≤ key a) := by
  induction l with
  | nil => simp [insertDescBy]
  | cons y ys ih =>
    rcases List.pairwise_cons.mp h with ⟨hy, hys⟩
    by_cases hxy : key y ≤ key x
    · simp only [insertDescBy, if_pos hxy]
      refine List.pairwise_cons.mpr ⟨?_, h⟩
      intro z hz
      rcases List.mem_cons.mp hz with rfl | hz2
      · exact hxy
      · exact le_trans (hy z hz2) hxy
    · simp only [insertDescBy, if_neg hxy]
      refine List.pairwise_cons.mpr ⟨?_, ih hys⟩
      intro z hz
      have hz3 := (insertDescBy_perm key x ys).mem_iff.mp hz
      rcases List.mem_cons.mp hz3 with rfl | hz4
      · omega
      · exact hy z hz4

/-- The ORDER BY id DESC result is sorted by descending key. -/
theorem orderByIdDesc_pairwise {α : Type} (key : α → Nat) (l : List α) :
    (orderByIdDesc key l).Pairwise (fun a b => key b ≤ key a) := by
  induction l with
  | nil => simp [orderByIdDesc]
  | cons x xs ih => exact insertDescBy_pairwise key x (orderByIdDesc key xs) ih

/-- With no duplicate keys the ORDER BY id DESC result is strictly
decreasing. -/
theorem orderByIdDesc_strict {α : Type} (key : α → Nat) (l : List α)
    (h : (l.map key).Nodup) :
    (orderByIdDesc key l).Pairwise (fun a b => key b < key a) := by
  have hperm : List.Perm (orderByIdDesc key l) l := orderByIdDesc_perm key l
  have hnd : ((orderByIdDesc key l).map key).Nodup :=
    ((hperm.map key).nodup_iff).mpr h
  have hne : (orderByIdDesc key l).Pairwise (fun a b => ¬ key a = key b) :=
    List.pairwise_map.mp hnd
  have hge := orderByIdDesc_pairwise key l
  exact (hge.and hne).imp (fun hab => by omega)

/-- Reading the key of the found row. -/
theorem findByKey_eq {α : Type} (key : α → Nat) (rows : List α) (i : Nat) (r : α)
    (h : findByKey key rows i = some r) : key r = i := by
  have := List.find?_some h
  simpa using this

/-- The found row is a member. -/
theorem findByKey_mem {α : Type} (key : α → Nat) (rows : List α) (i : Nat) (r : α)
    (h : findByKey key rows i = some r) : r ∈ rows :=
  List.mem_of_find?_eq_some h

/-- If no row has the key, find returns none. -/
theorem findByKey_none {α : Type} (key : α → Nat) (rows : List α) (i : Nat)
    (h : ∀ r ∈ rows, ¬ key r = i) : findByKey key rows i = none := by
  apply List.find?_eq_none.mpr
  intro r hr
  simpa using h r hr

/-- find over an id-preserving row replacement. -/
theorem findByKey_map_replace {α : Type} (key : α → Nat) (rows : List α) (i : Nat)
    (g : α → α) (hg : ∀ r, key (g r) = key r) :
    findByKey key (rows.map (fun r => if key r == i then g r else r)) i
      = (findByKey key rows i).map (fun r => if key r == i then g r else r) := by
  induction rows with
  | nil => simp [findByKey]
  | cons r rs ih =>
    by_cases h : (key r == i) = true
    · have h2 : (key (g r) == i) = true := by rw [hg]; exact h
      simp only [findByKey, List.map_cons]
      rw [if_pos h]
      rw [@List.find?_cons_of_pos _ (fun r => key r == i) (g r) _ h2,
        @List.find?_cons_of_pos _ (fun r => key r == i) r _ h]
      have h3 : key r = i := by simpa using h
      simp [h3]
    · simp only [findByKey, List.map_cons]
      rw [if_neg h]
      rw [@List.find?_cons_of_neg _ (fun r => key r == i) r _ h,
        @List.find?_cons_of_neg _ (fun r => key r == i) r _ h]
      exact ih

/-- find with a predicate failing on a whole prefix skips the prefix. -/
theorem find?_all_neg_append {α : Type} (p : α → Bool) (l1 l2 : List α)
    (h : ∀ x ∈ l1, ¬ p x = true) :
    (l1 ++ l2).find? p = l2.find? p := by
  induction l1 with
  | nil => simp
  | cons a l1 ih =>
    rw [List.cons_append, List.find?_cons_of_neg _ (h a (by simp))]
    exact ih (fun x hx => h x (by simp [hx]))

/-- After overwriting every matching pair, find returns the new pair. -/
theorem find?_map_overwrite (o : JsObj) (k : String) (v : RVal)
    (h : o.any (fun p => p.1 = k)) :
    (o.map (fun p => if p.1 = k then (k, v) else p)).find? (fun p => decide (p.1 = k))
      = some (k, v) := by
  induction o with
  | nil => simp at h
  | cons p ps ih =>
    by_cases hp : p.1 = k
    · simp only [List.map_cons, if_pos hp]
      rw [List.find?_cons_of_pos _ (by simp)]
    · have hps : ps.any (fun p => p.1 = k) := by
        simp only [List.any_cons] at h
        rcases (Bool.or_eq_true _ _).mp h with h1 | h2
        · exact absurd (by simpa using h1) hp
        · exact h2
      simp only [List.map_cons, if_neg hp]
      rw [List.find?_cons_of_neg _ (by simpa using hp)]
      exact ih hps

/-- Overwriting one key leaves lookups of other keys unchanged. -/
theorem find?_map_overwrite_ne (o : JsObj) (k k2 : String) (v : RVal) (h : ¬ k2 = k) :
    ((o.map (fun p => if p.1 = k then (k, v) else p)).find? (fun p => decide (p.1 = k2))).map
        (fun p => p.2)
      = (o.find? (fun p => decide (p.1 = k2))).map (fun p => p.2) := by
  induction o with
  | nil => simp
  | cons p ps ih =>
    by_cases hp : p.1 = k
    · have hp2 : ¬ p.1 = k2 := by
        rw [hp]; intro hc; exact h hc.symm
      have hkk : ¬ (k = k2) := fun hc => h hc.symm
      simp only [List.map_cons, if_pos hp]
      rw [List.find?_cons_of_neg _ (by simpa using hkk),
        List.find?_cons_of_neg _ (by simpa using hp2)]
      exact ih
    · simp only [List.map_cons, if_neg hp]
      by_cases hq : p.1 = k2
      · rw [List.find?_cons_of_pos _ (by simpa using hq),
          List.find?_cons_of_pos _ (by simpa using hq)]
      · rw [List.find?_cons_of_neg _ (by simpa using hq),
          List.find?_cons_of_neg _ (by simpa using hq)]
        exact ih

/-- Reading an overwritten key. -/
theorem getKey_setKey_eq (o : JsObj) (k : String) (v : RVal) :
    getKey (setKey o k v) k = some v := by
  unfold setKey getKey
  by_cases h : o.any (fun p => p.1 = k)
  · rw [if_pos h, find?_map_overwrite o k v h]
    rfl
  · rw [if_neg h]
    have hall : ∀ p ∈ o, ¬ (fun p => decide (p.1 = k)) p = true := by
      intro p hp hc
      exact h (List.any_eq_true.mpr ⟨p, hp, hc⟩)
    rw [find?_all_neg_append _ o [(k, v)] hall]
    simp

/-- Reading a different key after an overwrite. -/
theorem getKey_setKey_ne (o : JsObj) (k k2 : String) (v : RVal) (h : ¬ k2 = k) :
    getKey (setKey o k v) k2 = getKey o k2 := by
  unfold setKey getKey
  by_cases ha : o.any (fun p => p.1 = k)
  · rw [if_pos ha]
    exact find?_map_overwrite_ne o k k2 v h
  · rw [if_neg ha]
    have hkk : ¬ (k = k2) := fun hc => h hc.symm
    have hsingle : ([((k, v) : String × RVal)].find? (fun p => decide (p.1 = k2))) = none := by
      simp [hkk]
    have happ : (o ++ [(k, v)]).find? (fun p => decide (p.1 = k2))
        = o.find? (fun p => decide (p.1 = k2)) := by
      clear ha
      induction o with
      | nil => simpa using hsingle
      | cons p ps ih =>
        by_cases hq : p.1 = k2
        · rw [List.cons_append, List.find?_cons_of_pos _ (by simpa using hq),
            List.find?_cons_of_pos _ (by simpa using hq)]
        · rw [List.cons_append, List.find?_cons_of_neg _ (by simpa using hq),
            List.find?_cons_of_neg _ (by simpa using hq)]
          exact ih
    rw [happ]

/-- JavaScript x || d for a nullable string (null, undefined and the
empty string are falsy). -/
def jsOr (o : Option String) (d : String) : String :=
  match o with
  | some s => if s = "" then d else s
  | none => d

/-- Body of POST /api/vacantes.  Absent fields are none; field values
are strings (the handler treats anything else as falsy). -/
structure CreateBody where
  nombre : Option String
  area : Option String
  requisitor : Option String
  tipoProceso : Option String
  tipo : Option String
  prioridad : Option String
  comentarios : Option String
  fechaIngreso : Option String
deriving Repr, DecidableEq

/-- Body of PUT /api/vacantes/:id.  Absent fields are none. -/
structure UpdateBody where
  nombre : Option String
  area : Option String
  requisitor : Option String
  tipoProceso : Option String
  tipo : Option String
  prioridad : Option String
  comentarios : Option String
  estatus : Option String
  habilidades : Option Json
  terna : Option Json

/-- Initial estatus assigned by the create handler. -/
def estatusInicial : String := "Cargar Descripción de Puesto"

/-- fechaInicio computation of the create handler: a string body field
of length at least 10 is truncated to its first 10 characters,
anything else falls back to the current ISO date. -/
def computeFechaInicio (fechaIngreso : Option String) (today : Date) : String :=
  match fechaIngreso with
  | some s => if 10 ≤ s.length then s.take 10 else hoyISODate today
  | none => hoyISODate today

/-- Folio computed by the create handler from the current date and the
new id. -/
def folioFor (today : Date) (id : Nat) : String :=
  "PL-" ++ hoyYYYYMMDD today ++ "-" ++ pad4 id

/-- Serialization performed by the update handler:
habilidades present and truthy is stringified, otherwise null. -/
def jsonParam (o : Option Json) : Option String :=
  match o with
  | some v => if v.truthy then some (stringifyJson v) else none
  | none => none

/-- SQLite read normalization of a habilidades/terna text cell:
row.habilidades truthy is JSON.parsed (none models the uncaught parse
exception), otherwise null. -/
def sqliteJsonCell (cell : Option String) : Option RVal :=
  match cell with
  | none => some RVal.null
  | some s => if s = "" then some RVal.null else (parseJson s).map RVal.json

/-- Driver value of a nullable text column. -/
def optStrVal (o : Option String) : RVal :=
  match o with
  | some s => RVal.str s
  | none => RVal.null

/-- Driver value of a nullable JSONB column. -/
def optJsonVal (o : Option Json) : RVal :=
  match o with
  | some j => RVal.json j
  | none => RVal.null

/-- Postgres read normalization x || null of a JSONB driver value. -/
def pgJsonOr (o : Option Json) : RVal :=
  match o with
  | some j => if j.truthy then RVal.json j else RVal.null
  | none => RVal.null

/-- Postgres list mapping r.fechainicio || r.fechaInicio || r.fecha ||
null: the camel-case properties are undefined on the driver row, so
this reduces to the lower-cased column or null. -/
def pgFechaFallback (o : Option String) : RVal :=
  match o with
  | some s => if s = "" then RVal.null else RVal.str s
  | none => RVal.null

/-- SQLite driver row as a JavaScript object, keys in the SELECT column
order of the list and get-by-id queries. -/
def sqliteRowKV (r : SqliteRow) : JsObj :=
  [("id", RVal.num r.id), ("folio", optStrVal r.folio), ("nombre", optStrVal r.nombre),
   ("area", optStrVal r.area), ("requisitor", optStrVal r.requisitor),
   ("tipoProceso", optStrVal r.tipoProceso), ("tipo", optStrVal r.tipo),
   ("prioridad", optStrVal r.prioridad), ("fechaInicio", optStrVal r.fechaInicio),
   ("comentarios", optStrVal r.comentarios), ("estatus", optStrVal r.estatus),
   ("habilidades", optStrVal r.habilidades), ("terna", optStrVal r.terna)]

/-- SQLite driver row for SELECT *: keys in table column order (base
columns then the migrated columns folio, fechaInicio, habilidades,
terna). -/
def sqliteStarKV (r : SqliteRow) : JsObj :=
  [("id", RVal.num r.id), ("nombre", optStrVal r.nombre), ("area", optStrVal r.area),
   ("requisitor", optStrVal r.requisitor), ("tipoProceso", optStrVal r.tipoProceso),
   ("tipo", optStrVal r.tipo), ("prioridad", optStrVal r.prioridad),
   ("fecha", optStrVal r.fecha), ("comentarios", optStrVal r.comentarios),
   ("estatus", optStrVal r.estatus), ("folio", optStrVal r.folio),
   ("fechaInicio", optStrVal r.fechaInicio), ("habilidades", optStrVal r.habilidades),
   ("terna", optStrVal r.terna)]

/-- Postgres driver row as a JavaScript object: unquoted identifiers
come back lower-cased, in table column order. -/
def pgRowKV (r : PgRow) : JsObj :=
  [("id", RVal.num r.id), ("folio", optStrVal r.folio), ("nombre", optStrVal r.nombre),
   ("area", optStrVal r.area), ("requisitor", optStrVal r.requisitor),
   ("tipoproceso", optStrVal r.tipoproceso), ("tipo", optStrVal r.tipo),
   ("prioridad", optStrVal r.prioridad), ("fechainicio", optStrVal r.fechainicio),
   ("comentarios", optStrVal r.comentarios), ("estatus", optStrVal r.estatus),
   ("habilidades", optJsonVal r.habilidades), ("terna", optJsonVal r.terna)]

/-- SQLite response object for one row in the list and get-by-id
handlers: the row spread with habilidades and terna replaced by their
parsed values (none models the uncaught JSON.parse exception). -/
def sqliteRowObj (r : SqliteRow) : Option JsObj :=
  match sqliteJsonCell r.habilidades, sqliteJsonCell r.terna with
  | some h, some t => some (setKey (setKey (sqliteRowKV r) ("habilidades") h) ("terna") t)
  | _, _ => none

/-- GET /api/vacantes on the SQLite backend. -/
def listAllSqlite (db : SqliteDB) : HttpResult :=
  match (orderByIdDesc SqliteRow.id db.rows).mapM sqliteRowObj with
  | some objs => .okArr objs
  | none => .crash

/-- Postgres response object for one row of the list handler: the row
spread with habilidades, terna and the appended camel-case fechaInicio
override. -/
def pgListObj (r : PgRow) : JsObj :=
  setKey (setKey (setKey (pgRowKV r) ("habilidades") (pgJsonOr r.habilidades))
    ("terna") (pgJsonOr r.terna)) ("fechaInicio") (pgFechaFallback r.fechainicio)

/-- GET /api/vacantes on the Postgres backend. -/
def listAllPg (db : PgDB) : HttpResult :=
  .okArr ((orderByIdDesc PgRow.id db.rows).map pgListObj)

/-- GET /api/vacantes/:id on the SQLite backend. -/
def getByIdSqlite (db : SqliteDB) (i : Nat) : HttpResult :=
  match findByKey SqliteRow.id db.rows i with
  | none => .notFound ("Vacante no encontrada")
  | some r =>
    match sqliteRowObj r with
    | some o => .okObj o
    | none => .crash

/-- Postgres response object of the get-by-id handler: habilidades and
terna normalized, no fechaInicio mapping. -/
def getByIdPgObj (r : PgRow) : JsObj :=
  setKey (setKey (pgRowKV r) ("habilidades") (pgJsonOr r.habilidades))
    ("terna") (pgJsonOr r.terna)

/-- GET /api/vacantes/:id on the Postgres backend. -/
def getByIdPg (db : PgDB) (i : Nat) : HttpResult :=
  match findByKey PgRow.id db.rows i with
  | none => .notFound ("Vacante no encontrada")
  | some r => .okObj (getByIdPgObj r)

/-- Row inserted by phase (a) of the SQLite create handler: defaults
applied, legacy fecha null, folio null, habilidades and terna null. -/
def sqliteInsertRow (db : SqliteDB) (b : CreateBody) (today : Date) : SqliteRow :=
  ⟨db.nextId, some (jsOr b.nombre ("")), some (jsOr b.area ("")),
   some (jsOr b.requisitor ("")), some (jsOr b.tipoProceso ("")), some (jsOr b.tipo ("")),
   some (jsOr b.prioridad ("")), none, some (jsOr b.comentarios ("")), some estatusInicial,
   none, some (computeFechaInicio b.fechaIngreso today), none, none⟩

/-- POST /api/vacantes on the SQLite backend.  The two Bool arguments
inject a failure of the insert and of the folio update; a failed folio
update still answers 200 with a null folio and keeps the inserted
row. -/
def createSqlite (db : SqliteDB) (b : CreateBody) (today : Date)
    (insertFails folioUpdateFails : Bool) : HttpResult × SqliteDB :=
  if insertFails then (.serverError ("Error al guardar la vacante"), db)
  else
    let id := db.nextId
    let row := sqliteInsertRow db b today
    let db1 : SqliteDB := ⟨db.rows ++ [row], db.nextId + 1⟩
    let fechaInicio := computeFechaInicio b.fechaIngreso today
    let folio := folioFor today id
    if folioUpdateFails then
      (.okObj [("id", RVal.num id), ("folio", RVal.null), ("fechaInicio", RVal.str fechaInicio)],
       db1)
    else
      (.okObj [("id", RVal.num id), ("folio", RVal.str folio),
        ("fechaInicio", RVal.str fechaInicio)],
       ⟨db1.rows.map (fun r => if r.id == id then { r with folio := some folio } else r),
        db1.nextId⟩)

/-- Row inserted by phase (a) of the Postgres create handler.  The
fechainicio DATE column is modelled by its source text: the
text-to-date cast performed by the insert is not modelled, so runs
whose computed fechaInicio is not a castable date string fall outside
the model (see the C8 theorems, whose Postgres part is conditioned on
a well-formed date). -/
def pgInsertRow (db : PgDB) (b : CreateBody) (today : Date) : PgRow :=
  ⟨db.seq + 1, none, some (jsOr b.nombre ("")), some (jsOr b.area ("")),
   some (jsOr b.requisitor ("")), some (jsOr b.tipoProceso ("")), some (jsOr b.tipo ("")),
   some (jsOr b.prioridad ("")), some (computeFechaInicio b.fechaIngreso today),
   some (jsOr b.comentarios ("")), some estatusInicial, none, none⟩

/-- POST /api/vacantes on the Postgres backend.  A failing folio update
raises into the catch block: the handler answers 500 while the inserted
row persists (the two phases are not in one transaction). -/
def createPg (db : PgDB) (b : CreateBody) (today : Date)
    (insertFails folioUpdateFails : Bool) : HttpResult × PgDB :=
  if insertFails then (.serverError ("Error al guardar la vacante"), db)
  else
    let id := db.seq + 1
    let row := pgInsertRow db b today
    let db1 : PgDB := ⟨db.rows ++ [row], db.seq + 1⟩
    let fechaInicio := computeFechaInicio b.fechaIngreso today
    let folio := folioFor today id
    if folioUpdateFails then
      (.serverError ("Error al guardar la vacante"), db1)
    else
      (.okObj [("id", RVal.num id), ("folio", RVal.str folio),
        ("fechaInicio", RVal.str fechaInicio)],
       ⟨db1.rows.map (fun r => if r.id == id then { r with folio := some folio } else r),
        db1.seq⟩)

/-- New value of an updated SQLite row: the SET clause replaces exactly
the ten mutable columns (id, fecha, folio and fechaInicio are not in
the SET list). -/
def sqliteApplyUpdate (b : UpdateBody) (r : SqliteRow) : SqliteRow :=
  { r with
    nombre := b.nombre
    area := b.area
    requisitor := b.requisitor
    tipoProceso := b.tipoProceso
    tipo := b.tipo
    prioridad := b.prioridad
    comentarios := b.comentarios
    estatus := b.estatus
    habilidades := jsonParam b.habilidades
    terna := jsonParam b.terna }

/-- PUT /api/vacantes/:id on the SQLite backend: zero changed rows give
a 404, otherwise the row is replaced and re-read with SELECT * for the
response. -/
def updateSqlite (db : SqliteDB) (i : Nat) (b : UpdateBody) : HttpResult × SqliteDB :=
  match findByKey SqliteRow.id db.rows i with
  | none => (.notFound ("Vacante no encontrada"), db)
  | some _ =>
    let newRows := db.rows.map (fun r => if r.id == i then sqliteApplyUpdate b r else r)
    let db2 : SqliteDB := ⟨newRows, db.nextId⟩
    match findByKey SqliteRow.id newRows i with
    | none => (.okObj [("message", RVal.str ("Vacante actualizada correctamente"))], db2)
    | some row =>
      match sqliteJsonCell row.habilidades, sqliteJsonCell row.terna with
      | some h, some t =>
        (.okObj (setKey (setKey (sqliteStarKV row) ("habilidades") h) ("terna") t), db2)
      | _, _ => (.crash, db2)

/-- Cast of a nullable text parameter to a JSONB column value inside
the Postgres UPDATE: none models the query raising a cast error. -/
def pgCast (o : Option String) : Option (Option Json) :=
  match o with
  | none => some none
  | some s => (parseJson s).map some

/-- New value of an updated Postgres row: the SET clause replaces
exactly the ten mutable columns. -/
def pgApplyUpdate (b : UpdateBody) (hv tv : Option Json) (r : PgRow) : PgRow :=
  { r with
    nombre := b.nombre
    area := b.area
    requisitor := b.requisitor
    tipoproceso := b.tipoProceso
    tipo := b.tipo
    prioridad := b.prioridad
    comentarios := b.comentarios
    estatus := b.estatus
    habilidades := hv
    terna := tv }

/-- PUT /api/vacantes/:id on the Postgres backend: a failing cast of
the serialized parameters raises into the catch block (500) before the
row-count check; zero affected rows give a 404; otherwise the RETURNING
row is answered with only habilidades normalized. -/
def updatePg (db : PgDB) (i : Nat) (b : UpdateBody) : HttpResult × PgDB :=
  match pgCast (jsonParam b.habilidades), pgCast (jsonParam b.terna) with
  | some hv, some tv =>
    (match findByKey PgRow.id db.rows i with
     | none => (.notFound ("Vacante no encontrada"), db)
     | some old =>
       let row := pgApplyUpdate b hv tv old
       let newRows := db.rows.map (fun r => if r.id == i then pgApplyUpdate b hv tv r else r)
       (.okObj (setKey (pgRowKV row) ("habilidades") (pgJsonOr row.habilidades)),
        ⟨newRows, db.seq⟩))
  | _, _ => (.serverError ("Error al actualizar la vacante"), db)

/-- DELETE /api/vacantes/:id on the SQLite backend. -/
def deleteSqlite (db : SqliteDB) (i : Nat) : HttpResult × SqliteDB :=
  match findByKey SqliteRow.id db.rows i with
  | none => (.notFound ("Vacante no encontrada"), db)
  | some _ =>
    (.okObj [("message", RVal.str ("Vacante eliminada correctamente"))],
     ⟨db.rows.filter (fun r => !(r.id == i)), db.nextId⟩)

/-- DELETE /api/vacantes/:id on the Postgres backend. -/
def deletePg (db : PgDB) (i : Nat) : HttpResult × PgDB :=
  match findByKey PgRow.id db.rows i with
  | none => (.notFound ("Vacante no encontrada"), db)
  | some _ =>
    (.okObj [("message", RVal.str ("Vacante eliminada correctamente"))],
     ⟨db.rows.filter (fun r => !(r.id == i)), db.seq⟩)

/-- Columns of the base SQLite table created by CREATE TABLE IF NOT
EXISTS. -/
def sqliteBaseCols : List String :=
  ["id", "nombre", "area", "requisitor", "tipoProceso", "tipo", "prioridad", "fecha",
   "comentarios", "estatus"]

/-- ensureColumn of the SQLite migrator: inspect PRAGMA table_info and
add the column only when missing. -/
def ensureColumn (cols : List String) (c : String) : List String :=
  if c ∈ cols then cols else cols ++ [c]

/-- migrateSQLite schema effect: create the base table when absent,
then ensure folio, fechaInicio, habilidades and terna. -/
def migrateSqliteSchema (t : Option (List String)) : Option (List String) :=
  let cols := match t with
    | none => sqliteBaseCols
    | some cs => cs
  some (ensureColumn (ensureColumn (ensureColumn (ensureColumn cols ("folio"))
    ("fechaInicio")) ("habilidades")) ("terna"))

/-- Columns of the full Postgres table (lower-cased by the backend). -/
def pgFullCols : List String :=
  ["id", "folio", "nombre", "area", "requisitor", "tipoproceso", "tipo", "prioridad",
   "fechainicio", "comentarios", "estatus", "habilidades", "terna"]

/-- Postgres schema state: the vacantes table columns (none when the
table does not exist), the descending id index, the id sequence value
and the ids of the existing rows. -/
structure PgSchema where
  table : Option (List String)
  indexIdDesc : Bool
  seqVal : Nat
  ids : List Nat
deriving Repr, DecidableEq

/-- migratePostgres schema effect: CREATE TABLE IF NOT EXISTS with the
full column set, ADD COLUMN IF NOT EXISTS terna, CREATE INDEX IF NOT
EXISTS, and setval of the id sequence to COALESCE(MAX(id), 0). -/
def migratePgSchema (s : PgSchema) : PgSchema :=
  let cols := match s.table with
    | none => pgFullCols
    | some cs => cs
  let cols2 := if ("terna") ∈ cols then cols else cols ++ [("terna")]
  ⟨some cols2, true, s.ids.foldr max 0, s.ids⟩

/-- Value stored in a JSONB column by the update handler: the
serialize-then-cast pipeline stores the structured value itself for a
truthy input and NULL otherwise. -/
def jsonStored (o : Option Json) : Option Json :=
  match o with
  | some v => if v.truthy then some v else none
  | none => none

/-- The cast of the serialized update parameter never fails and stores
the structured value. -/
theorem pgCast_jsonParam (o : Option Json) : pgCast (jsonParam o) = some (jsonStored o) := by
  match o with
  | none => rfl
  | some v =>
    by_cases h : v.truthy
    · simp [jsonParam, jsonStored, h, pgCast, parseJson_stringifyJson]
    · simp [jsonParam, jsonStored, h, pgCast]

/-- Reading back a serialized habilidades/terna cell on SQLite yields
the structured value. -/
theorem sqliteJsonCell_stringify (v : Json) :
    sqliteJsonCell (some (stringifyJson v)) = some (RVal.json v) := by
  simp only [sqliteJsonCell]
  rw [if_neg (stringifyJson_ne_empty v), parseJson_stringifyJson]
  rfl

/-- Rows after a successful SQLite update: exactly the matching row is
replaced by the SET clause result. -/
theorem updateSqlite_rows (sdb : SqliteDB) (i : Nat) (b : UpdateBody) (old : SqliteRow)
    (hs : findByKey SqliteRow.id sdb.rows i = some old) :
    (updateSqlite sdb i b).2.rows
      = sdb.rows.map (fun r => if r.id == i then sqliteApplyUpdate b r else r) := by
  simp only [updateSqlite, hs]
  split
  · rfl
  · split <;> rfl

/-- nextId after an update is unchanged. -/
theorem updateSqlite_nextId (sdb : SqliteDB) (i : Nat) (b : UpdateBody) :
    (updateSqlite sdb i b).2.nextId = sdb.nextId := by
  simp only [updateSqlite]
  split
  · rfl
  · split
    · rfl
    · split <;> rfl

/-- Rows after a successful Postgres update. -/
theorem updatePg_rows (pdb : PgDB) (i : Nat) (b : UpdateBody) (old : PgRow)
    (hp : findByKey PgRow.id pdb.rows i = some old) :
    (updatePg pdb i b).2.rows
      = pdb.rows.map (fun r => if r.id == i then
          pgApplyUpdate b (jsonStored b.habilidades) (jsonStored b.terna) r else r) := by
  unfold updatePg
  rw [pgCast_jsonParam b.habilidades, pgCast_jsonParam b.terna, hp]

/-- The Postgres update keeps the sequence value. -/
theorem updatePg_seq (pdb : PgDB) (i : Nat) (b : UpdateBody) :
    (updatePg pdb i b).2.seq = pdb.seq := by
  unfold updatePg
  rw [pgCast_jsonParam b.habilidades, pgCast_jsonParam b.terna]
  cases h1 : findByKey PgRow.id pdb.rows i with
  | none => rfl
  | some old => rfl

/-- Lookup of a different id is unchanged by a single-row replacement. -/
theorem findByKey_map_replace_ne {α : Type} (key : α → Nat) (rows : List α) (i j : Nat)
    (g : α → α) (hg : ∀ r, key (g r) = key r) (hne : ¬ j = i) :
    findByKey key (rows.map (fun r => if key r == i then g r else r)) j
      = findByKey key rows j := by
  induction rows with
  | nil => simp [findByKey]
  | cons r rs ih =>
    by_cases h : (key r == i) = true
    · have hki : key r = i := by simpa using h
      have h2 : ¬ (key (g r) == j) = true := by
        simp [hg, hki]
        exact fun hc => hne hc.symm
      have h3 : ¬ (key r == j) = true := by
        simp [hki]
        exact fun hc => hne hc.symm
      simp only [findByKey, List.map_cons]
      rw [if_pos h]
      rw [@List.find?_cons_of_neg _ (fun r => key r == j) (g r) _ h2,
        @List.find?_cons_of_neg _ (fun r => key r == j) r _ h3]
      exact ih
    · simp only [findByKey, List.map_cons]
      rw [if_neg h]
      by_cases hq : (key r == j) = true
      · rw [@List.find?_cons_of_pos _ (fun r => key r == j) r _ hq,
          @List.find?_cons_of_pos _ (fun r => key r == j) r _ hq]
      · rw [@List.find?_cons_of_neg _ (fun r => key r == j) r _ hq,
          @List.find?_cons_of_neg _ (fun r => key r == j) r _ hq]
        exact ih

/-- mapM over Option succeeds when every element maps, and the result
is pointwise related to the input. -/
theorem mapM_some_of_forall {α β : Type} (f : α → Option β) :
    ∀ l : List α, (∀ x ∈ l, (f x).isSome) →
      ∃ l2, l.mapM f = some l2 ∧ List.Forall₂ (fun x y => f x = some y) l l2 := by
  intro l
  induction l with
  | nil => intro _; exact ⟨[], rfl, List.Forall₂.nil⟩
  | cons x xs ih =>
    intro h
    obtain ⟨y, hy⟩ := Option.isSome_iff_exists.mp (h x (by simp))
    obtain ⟨l2, hl2, hf⟩ := ih (fun z hz => h z (by simp [hz]))
    refine ⟨y :: l2, ?_, List.Forall₂.cons hy hf⟩
    rw [List.mapM_cons, hy, hl2]
    rfl

/-- Map a pointwise relation to a map equality. -/
theorem map_eq_of_forall₂ {α β γ : Type} (R : α → β → Prop) (g : β → γ) (h : α → γ)
    (l1 : List α) (l2 : List β) (hf : List.Forall₂ R l1 l2)
    (hgh : ∀ x y, R x y → g y = h x) : l2.map g = l1.map h := by
  induction hf with
  | nil => rfl
  | cons hxy _ ih => simp only [List.map_cons, ih, hgh _ _ hxy]

/-- A member of the left list of a pointwise relation has a related
member on the right. -/
theorem forall₂_mem_left {α β : Type} (R : α → β → Prop) (l1 : List α) (l2 : List β)
    (h : List.Forall₂ R l1 l2) (x : α) (hx : x ∈ l1) : ∃ y ∈ l2, R x y := by
  induction h with
  | nil => simp at hx
  | cons hxy htl ih =>
    rcases List.mem_cons.mp hx with rfl | hx2
    · exact ⟨_, by simp, hxy⟩
    · obtain ⟨y, hy, hr⟩ := ih hx2
      exact ⟨y, by simp [hy], hr⟩

/-- The last row of a mapped append-singleton. -/
theorem getLast?_map_append {α β : Type} (f : α → β) (l : List α) (x : α) :
    ((l ++ [x]).map f).getLast? = some (f x) := by
  rw [List.map_append]
  simp

/-- id survives the habilidades/terna overrides. -/
theorem getKey_id_habTerna (kv : JsObj) (h t : RVal) :
    getKey (setKey (setKey kv ("habilidades") h) ("terna") t) ("id") = getKey kv ("id") := by
  rw [getKey_setKey_ne _ _ _ _ (by decide), getKey_setKey_ne _ _ _ _ (by decide)]

/-- habilidades value after the overrides. -/
theorem getKey_hab_habTerna (kv : JsObj) (h t : RVal) :
    getKey (setKey (setKey kv ("habilidades") h) ("terna") t) ("habilidades") = some h := by
  rw [getKey_setKey_ne _ _ _ _ (by decide), getKey_setKey_eq]

/-- terna value after the overrides. -/
theorem getKey_terna_habTerna (kv : JsObj) (h t : RVal) :
    getKey (setKey (setKey kv ("habilidades") h) ("terna") t) ("terna") = some t := by
  rw [getKey_setKey_eq]

/-- id of a SQLite driver row object. -/
theorem sqliteRowKV_id (r : SqliteRow) : getKey (sqliteRowKV r) ("id") = some (RVal.num r.id) :=
  rfl

/-- id of a Postgres driver row object. -/
theorem pgRowKV_id (r : PgRow) : getKey (pgRowKV r) ("id") = some (RVal.num r.id) := rfl

/-- A Postgres driver row has no camel-case fechaInicio key. -/
theorem pgRowKV_fechaInicio (r : PgRow) : getKey (pgRowKV r) ("fechaInicio") = none := rfl

/-- The lower-cased fechainicio key of a Postgres driver row. -/
theorem pgRowKV_fechainicio (r : PgRow) :
    getKey (pgRowKV r) ("fechainicio") = some (optStrVal r.fechainicio) := rfl

/-- id of a Postgres list-response object. -/
theorem pgListObj_id (r : PgRow) : getKey (pgListObj r) ("id") = some (RVal.num r.id) := by
  unfold pgListObj
  rw [getKey_setKey_ne _ _ _ _ (by decide), getKey_setKey_ne _ _ _ _ (by decide),
    getKey_setKey_ne _ _ _ _ (by decide)]
  rfl

/-- fechaInicio of a Postgres list-response object. -/
theorem pgListObj_fechaInicio (r : PgRow) :
    getKey (pgListObj r) ("fechaInicio") = some (pgFechaFallback r.fechainicio) := by
  unfold pgListObj
  rw [getKey_setKey_eq]

/-- habilidades of a Postgres list-response object. -/
theorem pgListObj_hab (r : PgRow) :
    getKey (pgListObj r) ("habilidades") = some (pgJsonOr r.habilidades) := by
  unfold pgListObj
  rw [getKey_setKey_ne _ _ _ _ (by decide), getKey_setKey_ne _ _ _ _ (by decide),
    getKey_setKey_eq]

/-- terna of a Postgres list-response object. -/
theorem pgListObj_terna (r : PgRow) :
    getKey (pgListObj r) ("terna") = some (pgJsonOr r.terna) := by
  unfold pgListObj
  rw [getKey_setKey_ne _ _ _ _ (by decide), getKey_setKey_eq]

/-- habilidades of a Postgres get-by-id response object. -/
theorem getByIdPgObj_hab (r : PgRow) :
    getKey (getByIdPgObj r) ("habilidades") = some (pgJsonOr r.habilidades) := by
  unfold getByIdPgObj
  rw [getKey_setKey_ne _ _ _ _ (by decide), getKey_setKey_eq]

/-- terna of a Postgres get-by-id response object. -/
theorem getByIdPgObj_terna (r : PgRow) :
    getKey (getByIdPgObj r) ("terna") = some (pgJsonOr r.terna) := by
  rw [getByIdPgObj, getKey_setKey_eq]

/-- A Postgres get-by-id response object has no camel-case fechaInicio
key. -/
theorem getByIdPgObj_fechaInicio (r : PgRow) :
    getKey (getByIdPgObj r) ("fechaInicio") = none := by
  unfold getByIdPgObj
  rw [getKey_setKey_ne _ _ _ _ (by decide), getKey_setKey_ne _ _ _ _ (by decide)]
  rfl

/-- The lower-cased fechainicio key of a Postgres get-by-id response
object. -/
theorem getByIdPgObj_fechainicio (r : PgRow) :
    getKey (getByIdPgObj r) ("fechainicio") = some (optStrVal r.fechainicio) := by
  unfold getByIdPgObj
  rw [getKey_setKey_ne _ _ _ _ (by decide), getKey_setKey_ne _ _ _ _ (by decide)]
  rfl

/-- Sample SQLite row used by concrete witnesses. -/
def sampleSqliteRow : SqliteRow :=
  ⟨1, some ("Dev"), some ("IT"), some ("Ana"), some ("Nueva"), some ("Full"), some ("Alta"),
   none, some ("urgente"), some ("Abierta"), some ("PL-20260101-0001"), some ("2026-01-01"),
   none, none⟩

/-- Sample Postgres row used by concrete witnesses. -/
def samplePgRow : PgRow :=
  ⟨1, some ("PL-20260101-0001"), some ("Dev"), some ("IT"), some ("Ana"), some ("Nueva"),
   some ("Full"), some ("Alta"), some ("2026-01-01"), some ("urgente"), some ("Abierta"),
   none, none⟩

/-- The round-trip example value of the spec for habilidades. -/
def sampleHabilidades : Json :=
  Json.arr [Json.obj [("type", Json.str ("tecnica")), ("name", Json.str ("SQL"))]]

/-- A sample structured terna value. -/
def sampleTerna : Json := Json.arr [Json.obj [("name", Json.str ("Ana"))]]

/-- Sample update body used by concrete witnesses: the round-trip
example value of the spec. -/
def sampleUpdateBody : UpdateBody :=
  ⟨some ("Dev"), some ("IT"), some ("Ana"), some ("Nueva"), some ("Full"), some ("Alta"),
   some ("urgente"), some ("Entrevistas"), some sampleHabilidades, some sampleTerna⟩

/-- Sample create body used by concrete witnesses. -/
def sampleCreateBody : CreateBody :=
  ⟨some ("Dev"), some ("IT"), some ("Ana"), some ("Nueva"), some ("Full"), some ("Alta"),
   some ("urgente"), none⟩

/-- The last row after a fully successful create is the inserted row
with its folio set. -/
theorem createSqlite_lastRow (sdb : SqliteDB) (b : CreateBody) (d : Date) :
    (createSqlite sdb b d false false).2.rows.getLast?
      = some { sqliteInsertRow sdb b d with folio := some (folioFor d sdb.nextId) } := by
  rw [show (createSqlite sdb b d false false).2.rows
      = (sdb.rows ++ [sqliteInsertRow sdb b d]).map
          (fun r => if r.id == sdb.nextId then
            { r with folio := some (folioFor d sdb.nextId) } else r) from rfl]
  rw [getLast?_map_append]
  simp [sqliteInsertRow]

/-- The last row after a fully successful Postgres create is the
inserted row with its folio set. -/
theorem createPg_lastRow (pdb : PgDB) (b : CreateBody) (d : Date) :
    (createPg pdb b d false false).2.rows.getLast?
      = some { pgInsertRow pdb b d with folio := some (folioFor d (pdb.seq + 1)) } := by
  rw [show (createPg pdb b d false false).2.rows
      = (pdb.rows ++ [pgInsertRow pdb b d]).map
          (fun r => if r.id == pdb.seq + 1 then
            { r with folio := some (folioFor d (pdb.seq + 1)) } else r) from rfl]
  rw [getLast?_map_append]
  simp [pgInsertRow]

/-- C1: for every record created by create(fields) with both phases
succeeding, the folio assigned in phase (b) - both the one stored on
the new row and the one in the response - equals PL- followed by the
creation date as YYYYMMDD, a hyphen, and the new id zero-padded to 4
digits, on both backends. -/
theorem claim_C1 (sdb : SqliteDB) (pdb : PgDB) (b : CreateBody) (d : Date) :
    (∃ r : SqliteRow,
      (createSqlite sdb b d false false).2.rows.getLast? = some r ∧
      r.id = sdb.nextId ∧
      r.folio = some ("PL-" ++ hoyYYYYMMDD d ++ "-" ++ pad4 r.id)) ∧
    (createSqlite sdb b d false false).1
      = .okObj [("id", RVal.num sdb.nextId),
          ("folio", RVal.str ("PL-" ++ hoyYYYYMMDD d ++ "-" ++ pad4 sdb.nextId)),
          ("fechaInicio", RVal.str (computeFechaInicio b.fechaIngreso d))] ∧
    (∃ r : PgRow,
      (createPg pdb b d false false).2.rows.getLast? = some r ∧
      r.id = pdb.seq + 1 ∧
      r.folio = some ("PL-" ++ hoyYYYYMMDD d ++ "-" ++ pad4 r.id)) ∧
    (createPg pdb b d false false).1
      = .okObj [("id", RVal.num (pdb.seq + 1)),
          ("folio", RVal.str ("PL-" ++ hoyYYYYMMDD d ++ "-" ++ pad4 (pdb.seq + 1))),
          ("fechaInicio", RVal.str (computeFechaInicio b.fechaIngreso d))] := by
  refine ⟨⟨_, createSqlite_lastRow sdb b d, rfl, rfl⟩, rfl,
    ⟨_, createPg_lastRow pdb b d, rfl, rfl⟩, rfl⟩

/-- C4 counterexample: on the Postgres backend, when the insert
succeeds and the folio update fails, the caller receives a 500 error
response, not a 200 with folio null; the inserted row does persist. -/
theorem claim_C4_cex :
    (createPg ⟨[], 0⟩ sampleCreateBody ⟨2026, 1, 2⟩ false true).1.status = 500 ∧
    ¬ (createPg ⟨[], 0⟩ sampleCreateBody ⟨2026, 1, 2⟩ false true).1.status = 200 ∧
    (createPg ⟨[], 0⟩ sampleCreateBody ⟨2026, 1, 2⟩ false true).2.rows.map
        (fun r => (r.id, r.folio)) = [(1, none)] :=
  ⟨rfl, by decide, rfl⟩

/-- C4 amended: when phase (a) succeeds and phase (b) fails, the
inserted row persists with a null folio on both backends; the SQLite
caller receives a 200 with the new id and folio null, while the
Postgres caller receives a 500 error response. -/
theorem claim_C4_amended (sdb : SqliteDB) (pdb : PgDB) (b : CreateBody) (d : Date) :
    ((createSqlite sdb b d false true).1
        = .okObj [("id", RVal.num sdb.nextId), ("folio", RVal.null),
            ("fechaInicio", RVal.str (computeFechaInicio b.fechaIngreso d))] ∧
      (createSqlite sdb b d false true).2.rows = sdb.rows ++ [sqliteInsertRow sdb b d] ∧
      (sqliteInsertRow sdb b d).folio = none) ∧
    ((createPg pdb b d false true).1.status = 500 ∧
      (createPg pdb b d false true).2.rows = pdb.rows ++ [pgInsertRow pdb b d] ∧
      (pgInsertRow pdb b d).folio = none) :=
  ⟨⟨rfl, rfl, rfl⟩, rfl, rfl, rfl⟩

/-- C9 counterexample: the Postgres get-by-id handler returns the
driver row without mapping the lower-cased fechainicio key back to the
canonical camel-case fechaInicio. -/
theorem claim_C9_cex :
    getByIdPg ⟨[samplePgRow], 1⟩ 1 = .okObj (getByIdPgObj samplePgRow) ∧
    getKey (getByIdPgObj samplePgRow) ("fechaInicio") = none ∧
    getKey (getByIdPgObj samplePgRow) ("fechainicio") = some (RVal.str ("2026-01-01")) :=
  ⟨rfl, rfl, rfl⟩

/-- C9 amended: on the Postgres backend listAll adds the canonical
camel-case fechaInicio key (mapped from the lower-cased column) to
every returned record, but getById performs no such mapping: its
records carry only the lower-cased fechainicio key. -/
theorem claim_C9_amended (pdb : PgDB) (i : Nat) (r : PgRow)
    (hp : findByKey PgRow.id pdb.rows i = some r) :
    (∃ objs, listAllPg pdb = .okArr objs ∧
      ∀ o ∈ objs, ∃ r2 ∈ pdb.rows, o = pgListObj r2 ∧
        getKey o ("fechaInicio") = some (pgFechaFallback r2.fechainicio)) ∧
    getByIdPg pdb i = .okObj (getByIdPgObj r) ∧
    getKey (getByIdPgObj r) ("fechaInicio") = none ∧
    getKey (getByIdPgObj r) ("fechainicio") = some (optStrVal r.fechainicio) := by
  refine ⟨⟨(orderByIdDesc PgRow.id pdb.rows).map pgListObj, rfl, ?_⟩, ?_, ?_, ?_⟩
  · intro o ho
    obtain ⟨r2, hr2, hmap⟩ := List.mem_map.mp ho
    refine ⟨r2, (orderByIdDesc_perm PgRow.id pdb.rows).mem_iff.mp hr2, hmap.symm, ?_⟩
    rw [← hmap]
    exact pgListObj_fechaInicio r2
  · unfold getByIdPg
    rw [hp]
  · exact getByIdPgObj_fechaInicio r
  · exact getByIdPgObj_fechainicio r

/-- C9 witness: the amended claim evaluated on a one-row Postgres
table. -/
theorem claim_C9_witness :
    (∃ objs, listAllPg ⟨[samplePgRow], 1⟩ = .okArr objs ∧
      ∀ o ∈ objs, ∃ r2 ∈ (⟨[samplePgRow], 1⟩ : PgDB).rows, o = pgListObj r2 ∧
        getKey o ("fechaInicio") = some (pgFechaFallback r2.fechainicio)) ∧
    getByIdPg ⟨[samplePgRow], 1⟩ 1 = .okObj (getByIdPgObj samplePgRow) ∧
    getKey (getByIdPgObj samplePgRow) ("fechaInicio") = none ∧
    getKey (getByIdPgObj samplePgRow) ("fechainicio")
      = some (optStrVal samplePgRow.fechainicio) :=
  claim_C9_amended ⟨[samplePgRow], 1⟩ 1 samplePgRow rfl

/-- C3: updating or deleting a nonexistent id returns 404 and leaves
the whole table state unchanged, on both backends. -/
theorem claim_C3 (sdb : SqliteDB) (pdb : PgDB) (i : Nat) (b : UpdateBody)
    (hs : findByKey SqliteRow.id sdb.rows i = none)
    (hp : findByKey PgRow.id pdb.rows i = none) :
    (updateSqlite sdb i b).1.status = 404 ∧ (updateSqlite sdb i b).2 = sdb ∧
    (deleteSqlite sdb i).1.status = 404 ∧ (deleteSqlite sdb i).2 = sdb ∧
    (updatePg pdb i b).1.status = 404 ∧ (updatePg pdb i b).2 = pdb ∧
    (deletePg pdb i).1.status = 404 ∧ (deletePg pdb i).2 = pdb := by
  have h1 := pgCast_jsonParam b.habilidades
  have h2 := pgCast_jsonParam b.terna
  refine ⟨?_, ?_, ?_, ?_, ?_, ?_, ?_, ?_⟩ <;>
    simp only [updateSqlite, deleteSqlite, updatePg, deletePg, hs, hp, h1, h2] <;> rfl

/-- C3 witness: not-found behavior on concrete one-row tables. -/
theorem claim_C3_witness :
    (updateSqlite ⟨[sampleSqliteRow], 2⟩ 2 sampleUpdateBody).1.status = 404 ∧
    (updateSqlite ⟨[sampleSqliteRow], 2⟩ 2 sampleUpdateBody).2 = ⟨[sampleSqliteRow], 2⟩ ∧
    (deleteSqlite ⟨[sampleSqliteRow], 2⟩ 2).1.status = 404 ∧
    (deleteSqlite ⟨[sampleSqliteRow], 2⟩ 2).2 = ⟨[sampleSqliteRow], 2⟩ ∧
    (updatePg ⟨[samplePgRow], 1⟩ 2 sampleUpdateBody).1.status = 404 ∧
    (updatePg ⟨[samplePgRow], 1⟩ 2 sampleUpdateBody).2 = ⟨[samplePgRow], 1⟩ ∧
    (deletePg ⟨[samplePgRow], 1⟩ 2).1.status = 404 ∧
    (deletePg ⟨[samplePgRow], 1⟩ 2).2 = ⟨[samplePgRow], 1⟩ :=
  claim_C3 ⟨[sampleSqliteRow], 2⟩ ⟨[samplePgRow], 1⟩ 2 sampleUpdateBody rfl rfl

/-- A guarded column addition is a no-op when the column exists. -/
theorem ensureColumn_of_mem (cols : List String) (c : String) (h : c ∈ cols) :
    ensureColumn cols c = cols := by
  simp [ensureColumn, h]

/-- The ensured column is present afterwards. -/
theorem mem_ensureColumn_self (cols : List String) (c : String) : c ∈ ensureColumn cols c := by
  by_cases h : c ∈ cols
  · simp [ensureColumn, h]
  · simp [ensureColumn, h]

/-- Existing columns survive an ensure. -/
theorem mem_ensureColumn_of_mem (cols : List String) (c x : String) (h : x ∈ cols) :
    x ∈ ensureColumn cols c := by
  by_cases hc : c ∈ cols
  · simpa [ensureColumn, hc] using h
  · simp [ensureColumn, hc, h]

/-- An ensure never introduces a duplicate column. -/
theorem ensureColumn_nodup (cols : List String) (c : String) (h : cols.Nodup) :
    (ensureColumn cols c).Nodup := by
  by_cases hc : c ∈ cols
  · simpa [ensureColumn, hc] using h
  · rw [ensureColumn, if_neg hc]
    apply List.Nodup.append h (List.nodup_singleton c)
    intro a ha hb
    rw [List.mem_singleton] at hb
    subst hb
    exact hc ha

/-- The four migrated columns are present after the chain of
ensures. -/
theorem migrateCols_mem (cols : List String) :
    ("folio") ∈ (ensureColumn (ensureColumn (ensureColumn (ensureColumn cols ("folio"))
      ("fechaInicio")) ("habilidades")) ("terna")) ∧
    ("fechaInicio") ∈ (ensureColumn (ensureColumn (ensureColumn (ensureColumn cols ("folio"))
      ("fechaInicio")) ("habilidades")) ("terna")) ∧
    ("habilidades") ∈ (ensureColumn (ensureColumn (ensureColumn (ensureColumn cols ("folio"))
      ("fechaInicio")) ("habilidades")) ("terna")) ∧
    ("terna") ∈ (ensureColumn (ensureColumn (ensureColumn (ensureColumn cols ("folio"))
      ("fechaInicio")) ("habilidades")) ("terna")) := by
  refine ⟨?_, ?_, ?_, ?_⟩
  · exact mem_ensureColumn_of_mem _ _ _ (mem_ensureColumn_of_mem _ _ _
      (mem_ensureColumn_of_mem _ _ _ (mem_ensureColumn_self _ _)))
  · exact mem_ensureColumn_of_mem _ _ _ (mem_ensureColumn_of_mem _ _ _
      (mem_ensureColumn_self _ _))
  · exact mem_ensureColumn_of_mem _ _ _ (mem_ensureColumn_self _ _)
  · exact mem_ensureColumn_self _ _

/-- C6: running either schema migrator twice in sequence is the same as
running it once (no error is possible in the model since every addition
is guarded), and a migration run never introduces a duplicate
column. -/
theorem claim_C6 :
    (∀ t, migrateSqliteSchema (migrateSqliteSchema t) = migrateSqliteSchema t) ∧
    (∀ s, migratePgSchema (migratePgSchema s) = migratePgSchema s) ∧
    (∀ cols, cols.Nodup → ∀ cols2, migrateSqliteSchema (some cols) = some cols2 → cols2.Nodup) ∧
    (∀ (s : PgSchema) cols cols2, s.table = some cols → cols.Nodup →
      (migratePgSchema s).table = some cols2 → cols2.Nodup) := by
  refine ⟨?_, ?_, ?_, ?_⟩
  · intro t
    simp only [migrateSqliteSchema]
    obtain ⟨hf, hi, hh, ht⟩ := migrateCols_mem (match t with
      | none => sqliteBaseCols
      | some cs => cs)
    rw [ensureColumn_of_mem _ _ hf, ensureColumn_of_mem _ _ hi,
      ensureColumn_of_mem _ _ hh, ensureColumn_of_mem _ _ ht]
  · intro s
    have hmem : ∀ cols : List String,
        ("terna") ∈ (if ("terna") ∈ cols then cols else cols ++ [("terna")]) := by
      intro cols
      by_cases h : ("terna") ∈ cols
      · rw [if_pos h]; exact h
      · rw [if_neg h]; simp
    simp only [migratePgSchema]
    rw [if_pos (hmem _)]
  · intro cols hnd cols2 heq
    simp only [migrateSqliteSchema, Option.some.injEq] at heq
    rw [← heq]
    exact ensureColumn_nodup _ _ (ensureColumn_nodup _ _ (ensureColumn_nodup _ _
      (ensureColumn_nodup _ _ hnd)))
  · intro s cols cols2 ht hnd heq
    simp only [migratePgSchema, ht, Option.some.injEq] at heq
    rw [← heq]
    exact ensureColumn_nodup cols ("terna") hnd

/-- C6 witness: idempotence and duplicate-freedom evaluated on concrete
schemas. -/
theorem claim_C6_witness :
    migrateSqliteSchema (migrateSqliteSchema (some sqliteBaseCols))
      = migrateSqliteSchema (some sqliteBaseCols) ∧
    migratePgSchema (migratePgSchema ⟨none, false, 5, [3, 1]⟩)
      = migratePgSchema ⟨none, false, 5, [3, 1]⟩ ∧
    (sqliteBaseCols ++ [("folio"), ("fechaInicio"), ("habilidades"), ("terna")]).Nodup ∧
    pgFullCols.Nodup :=
  ⟨claim_C6.1 (some sqliteBaseCols), claim_C6.2.1 ⟨none, false, 5, [3, 1]⟩,
    claim_C6.2.2.1 sqliteBaseCols (by decide) _ rfl,
    claim_C6.2.2.2 ⟨some pgFullCols, true, 0, []⟩ pgFullCols pgFullCols rfl (by decide) rfl⟩

/-- C7: an update never changes the id, folio, fechaInicio (or legacy
fecha) of the updated record, and never touches any other record, on
both backends. -/
theorem claim_C7 (sdb : SqliteDB) (pdb : PgDB) (i : Nat) (b : UpdateBody)
    (oldS : SqliteRow) (oldP : PgRow)
    (hs : findByKey SqliteRow.id sdb.rows i = some oldS)
    (hp : findByKey PgRow.id pdb.rows i = some oldP) :
    (∀ r, findByKey SqliteRow.id (updateSqlite sdb i b).2.rows i = some r →
      r.id = oldS.id ∧ r.folio = oldS.folio ∧ r.fechaInicio = oldS.fechaInicio ∧
      r.fecha = oldS.fecha) ∧
    (∀ j, ¬ j = i →
      findByKey SqliteRow.id (updateSqlite sdb i b).2.rows j
        = findByKey SqliteRow.id sdb.rows j) ∧
    (∀ r, findByKey PgRow.id (updatePg pdb i b).2.rows i = some r →
      r.id = oldP.id ∧ r.folio = oldP.folio ∧ r.fechainicio = oldP.fechainicio) ∧
    (∀ j, ¬ j = i →
      findByKey PgRow.id (updatePg pdb i b).2.rows j = findByKey PgRow.id pdb.rows j) := by
  have hidS : oldS.id = i := findByKey_eq _ _ _ _ hs
  have hidP : oldP.id = i := findByKey_eq _ _ _ _ hp
  have hrowsS := updateSqlite_rows sdb i b oldS hs
  have hrowsP := updatePg_rows pdb i b oldP hp
  refine ⟨?_, ?_, ?_, ?_⟩
  · intro r hr
    rw [hrowsS, findByKey_map_replace SqliteRow.id sdb.rows i (sqliteApplyUpdate b)
      (fun r => rfl), hs] at hr
    simp [hidS] at hr
    rw [← hr]
    exact ⟨rfl, rfl, rfl, rfl⟩
  · intro j hj
    rw [hrowsS]
    exact findByKey_map_replace_ne SqliteRow.id sdb.rows i j (sqliteApplyUpdate b)
      (fun r => rfl) hj
  · intro r hr
    rw [hrowsP, findByKey_map_replace PgRow.id pdb.rows i
      (pgApplyUpdate b (jsonStored b.habilidades) (jsonStored b.terna)) (fun r => rfl), hp] at hr
    simp [hidP] at hr
    rw [← hr]
    exact ⟨rfl, rfl, rfl⟩
  · intro j hj
    rw [hrowsP]
    exact findByKey_map_replace_ne PgRow.id pdb.rows i j
      (pgApplyUpdate b (jsonStored b.habilidades) (jsonStored b.terna)) (fun r => rfl) hj

/-- C7 witness: the frame condition evaluated on concrete one-row
tables. -/
theorem claim_C7_witness :
    (∀ r, findByKey SqliteRow.id
        (updateSqlite ⟨[sampleSqliteRow], 2⟩ 1 sampleUpdateBody).2.rows 1 = some r →
      r.id = sampleSqliteRow.id ∧ r.folio = sampleSqliteRow.folio ∧
      r.fechaInicio = sampleSqliteRow.fechaInicio ∧ r.fecha = sampleSqliteRow.fecha) ∧
    (∀ j, ¬ j = 1 →
      findByKey SqliteRow.id (updateSqlite ⟨[sampleSqliteRow], 2⟩ 1 sampleUpdateBody).2.rows j
        = findByKey SqliteRow.id (⟨[sampleSqliteRow], 2⟩ : SqliteDB).rows j) ∧
    (∀ r, findByKey PgRow.id (updatePg ⟨[samplePgRow], 1⟩ 1 sampleUpdateBody).2.rows 1 = some r →
      r.id = samplePgRow.id ∧ r.folio = samplePgRow.folio ∧
      r.fechainicio = samplePgRow.fechainicio) ∧
    (∀ j, ¬ j = 1 →
      findByKey PgRow.id (updatePg ⟨[samplePgRow], 1⟩ 1 sampleUpdateBody).2.rows j
        = findByKey PgRow.id (⟨[samplePgRow], 1⟩ : PgDB).rows j) :=
  claim_C7 ⟨[sampleSqliteRow], 2⟩ ⟨[samplePgRow], 1⟩ 1 sampleUpdateBody
    sampleSqliteRow samplePgRow rfl rfl

/-- C10: after an update of an existing id, every mutable column of the
stored row equals exactly the (serialized) request-body value - in
particular a mutable field absent from the body is overwritten with
null, never preserved from the prior row - on both backends. -/
theorem claim_C10 (sdb : SqliteDB) (pdb : PgDB) (i : Nat) (b : UpdateBody)
    (oldS : SqliteRow) (oldP : PgRow)
    (hs : findByKey SqliteRow.id sdb.rows i = some oldS)
    (hp : findByKey PgRow.id pdb.rows i = some oldP) :
    (∀ r, findByKey SqliteRow.id (updateSqlite sdb i b).2.rows i = some r →
      r.nombre = b.nombre ∧ r.area = b.area ∧ r.requisitor = b.requisitor ∧
      r.tipoProceso = b.tipoProceso ∧ r.tipo = b.tipo ∧ r.prioridad = b.prioridad ∧
      r.comentarios = b.comentarios ∧ r.estatus = b.estatus ∧
      r.habilidades = jsonParam b.habilidades ∧ r.terna = jsonParam b.terna ∧
      (b.nombre = none → r.nombre = none) ∧ (b.habilidades = none → r.habilidades = none)) ∧
    (∀ r, findByKey PgRow.id (updatePg pdb i b).2.rows i = some r →
      r.nombre = b.nombre ∧ r.area = b.area ∧ r.requisitor = b.requisitor ∧
      r.tipoproceso = b.tipoProceso ∧ r.tipo = b.tipo ∧ r.prioridad = b.prioridad ∧
      r.comentarios = b.comentarios ∧ r.estatus = b.estatus ∧
      r.habilidades = jsonStored b.habilidades ∧ r.terna = jsonStored b.terna ∧
      (b.nombre = none → r.nombre = none) ∧ (b.habilidades = none → r.habilidades = none)) := by
  have hidS : oldS.id = i := findByKey_eq _ _ _ _ hs
  have hidP : oldP.id = i := findByKey_eq _ _ _ _ hp
  have hrowsS := updateSqlite_rows sdb i b oldS hs
  have hrowsP := updatePg_rows pdb i b oldP hp
  constructor
  · intro r hr
    rw [hrowsS, findByKey_map_replace SqliteRow.id sdb.rows i (sqliteApplyUpdate b)
      (fun r => rfl), hs] at hr
    simp [hidS] at hr
    rw [← hr]
    refine ⟨rfl, rfl, rfl, rfl, rfl, rfl, rfl, rfl, rfl, rfl, fun hn => hn, fun hn => ?_⟩
    show jsonParam b.habilidades = none
    rw [hn]
    rfl
  · intro r hr
    rw [hrowsP, findByKey_map_replace PgRow.id pdb.rows i
      (pgApplyUpdate b (jsonStored b.habilidades) (jsonStored b.terna)) (fun r => rfl), hp] at hr
    simp [hidP] at hr
    rw [← hr]
    refine ⟨rfl, rfl, rfl, rfl, rfl, rfl, rfl, rfl, rfl, rfl, fun hn => hn, fun hn => ?_⟩
    show jsonStored b.habilidades = none
    rw [hn]
    rfl

/-- C10 witness: the overwrite semantics evaluated on concrete one-row
tables; every mutable column of the stored row equals the body value
(the absent-field conjuncts hold vacuously here, and follow for any
omitted field from the universally quantified theorem). -/
theorem claim_C10_witness :
    (∀ r, findByKey SqliteRow.id
        (updateSqlite ⟨[sampleSqliteRow], 2⟩ 1 sampleUpdateBody).2.rows 1 = some r →
      r.nombre = sampleUpdateBody.nombre ∧ r.area = sampleUpdateBody.area ∧
      r.requisitor = sampleUpdateBody.requisitor ∧
      r.tipoProceso = sampleUpdateBody.tipoProceso ∧ r.tipo = sampleUpdateBody.tipo ∧
      r.prioridad = sampleUpdateBody.prioridad ∧
      r.comentarios = sampleUpdateBody.comentarios ∧ r.estatus = sampleUpdateBody.estatus ∧
      r.habilidades = jsonParam sampleUpdateBody.habilidades ∧
      r.terna = jsonParam sampleUpdateBody.terna ∧
      (sampleUpdateBody.nombre = none → r.nombre = none) ∧
      (sampleUpdateBody.habilidades = none → r.habilidades = none)) ∧
    (∀ r, findByKey PgRow.id (updatePg ⟨[samplePgRow], 1⟩ 1 sampleUpdateBody).2.rows 1 = some r →
      r.nombre = sampleUpdateBody.nombre ∧ r.area = sampleUpdateBody.area ∧
      r.requisitor = sampleUpdateBody.requisitor ∧
      r.tipoproceso = sampleUpdateBody.tipoProceso ∧ r.tipo = sampleUpdateBody.tipo ∧
      r.prioridad = sampleUpdateBody.prioridad ∧
      r.comentarios = sampleUpdateBody.comentarios ∧ r.estatus = sampleUpdateBody.estatus ∧
      r.habilidades = jsonStored sampleUpdateBody.habilidades ∧
      r.terna = jsonStored sampleUpdateBody.terna ∧
      (sampleUpdateBody.nombre = none → r.nombre = none) ∧
      (sampleUpdateBody.habilidades = none → r.habilidades = none)) :=
  claim_C10 ⟨[sampleSqliteRow], 2⟩ ⟨[samplePgRow], 1⟩ 1 sampleUpdateBody
    sampleSqliteRow samplePgRow rfl rfl

/-- Shape of a SQLite row response object when both JSON cells
normalize. -/
theorem sqliteRowObj_eq (r : SqliteRow) (hv tv : RVal)
    (h3 : sqliteJsonCell r.habilidades = some hv) (h4 : sqliteJsonCell r.terna = some tv) :
    sqliteRowObj r = some (setKey (setKey (sqliteRowKV r) ("habilidades") hv) ("terna") tv) := by
  unfold sqliteRowObj
  rw [h3, h4]

/-- The id key of any produced SQLite row response object. -/
theorem getKey_id_sqliteRowObj (r : SqliteRow) (o : JsObj) (h : sqliteRowObj r = some o) :
    getKey o ("id") = some (RVal.num r.id) := by
  unfold sqliteRowObj at h
  cases h3 : sqliteJsonCell r.habilidades with
  | none =>
    rw [h3] at h
    exact absurd h (by simp)
  | some hv =>
    cases h4 : sqliteJsonCell r.terna with
    | none =>
      rw [h3, h4] at h
      exact absurd h (by simp)
    | some tv =>
      rw [h3, h4] at h
      have h2 := Option.some.inj h
      rw [← h2, getKey_id_habTerna, sqliteRowKV_id]

/-- C5: listAll returns every record of the table, with the id values
strictly decreasing in traversal order, on both backends (on SQLite
under the proviso that every stored JSON cell parses, since a corrupted
cell crashes the handler). -/
theorem claim_C5 (sdb : SqliteDB) (pdb : PgDB)
    (hs : (sdb.rows.map SqliteRow.id).Nodup)
    (hp : (pdb.rows.map PgRow.id).Nodup)
    (hparse : ∀ r ∈ sdb.rows, (sqliteRowObj r).isSome) :
    (∃ objs, listAllSqlite sdb = .okArr objs ∧
      ∃ ids : List Nat,
        objs.map (fun o => getKey o ("id")) = ids.map (fun n => some (RVal.num n)) ∧
        List.Perm ids (sdb.rows.map SqliteRow.id) ∧ ids.Pairwise (fun a b => b < a)) ∧
    (∃ objs, listAllPg pdb = .okArr objs ∧
      ∃ ids : List Nat,
        objs.map (fun o => getKey o ("id")) = ids.map (fun n => some (RVal.num n)) ∧
        List.Perm ids (pdb.rows.map PgRow.id) ∧ ids.Pairwise (fun a b => b < a)) := by
  constructor
  · have hall : ∀ r ∈ orderByIdDesc SqliteRow.id sdb.rows, (sqliteRowObj r).isSome :=
      fun r hr => hparse r ((orderByIdDesc_perm _ _).mem_iff.mp hr)
    obtain ⟨objs, hmapM, hf2⟩ := mapM_some_of_forall sqliteRowObj _ hall
    refine ⟨objs, ?_, (orderByIdDesc SqliteRow.id sdb.rows).map SqliteRow.id, ?_, ?_, ?_⟩
    · unfold listAllSqlite
      rw [hmapM]
    · have hmaps := map_eq_of_forall₂ (fun x y => sqliteRowObj x = some y)
        (fun o => getKey o ("id")) (fun r => some (RVal.num r.id)) _ _ hf2
        (fun x y hxy => getKey_id_sqliteRowObj x y hxy)
      rw [hmaps, List.map_map]
      rfl
    · exact (orderByIdDesc_perm SqliteRow.id sdb.rows).map SqliteRow.id
    · exact List.pairwise_map.mpr (orderByIdDesc_strict SqliteRow.id sdb.rows hs)
  · refine ⟨(orderByIdDesc PgRow.id pdb.rows).map pgListObj, rfl,
      (orderByIdDesc PgRow.id pdb.rows).map PgRow.id, ?_, ?_, ?_⟩
    · rw [List.map_map, List.map_map]
      apply List.map_congr_left
      intro a _
      exact pgListObj_id a
    · exact (orderByIdDesc_perm PgRow.id pdb.rows).map PgRow.id
    · exact List.pairwise_map.mpr (orderByIdDesc_strict PgRow.id pdb.rows hp)

/-- C5 witness: listAll evaluated on concrete two-row tables. -/
theorem claim_C5_witness :
    ((∃ objs, listAllSqlite ⟨[sampleSqliteRow, ⟨2, some ("QA"), none, none, none, none, none,
        none, none, none, none, none, some ("[]"), none⟩], 3⟩ = .okArr objs ∧
      ∃ ids : List Nat,
        objs.map (fun o => getKey o ("id")) = ids.map (fun n => some (RVal.num n)) ∧
        List.Perm ids ((⟨[sampleSqliteRow, ⟨2, some ("QA"), none, none, none, none, none,
          none, none, none, none, none, some ("[]"), none⟩], 3⟩ : SqliteDB).rows.map
            SqliteRow.id) ∧
        ids.Pairwise (fun a b => b < a)) ∧
    (∃ objs, listAllPg ⟨[samplePgRow], 1⟩ = .okArr objs ∧
      ∃ ids : List Nat,
        objs.map (fun o => getKey o ("id")) = ids.map (fun n => some (RVal.num n)) ∧
        List.Perm ids ((⟨[samplePgRow], 1⟩ : PgDB).rows.map PgRow.id) ∧
        ids.Pairwise (fun a b => b < a))) :=
  claim_C5 ⟨[sampleSqliteRow, ⟨2, some ("QA"), none, none, none, none, none,
      none, none, none, none, none, some ("[]"), none⟩], 3⟩ ⟨[samplePgRow], 1⟩
    (by decide) (by decide)
    (by
      intro r hr
      rcases List.mem_cons.mp hr with rfl | hr2
      · rfl
      · rw [List.mem_singleton] at hr2
        subst hr2
        rfl)

/-- C2: a structured truthy value written into habilidades (and terna)
by update and read back through getById or listAll comes back
structurally equal - a structured value, never the raw serialized
string - on both backends. -/
theorem claim_C2 (sdb : SqliteDB) (pdb : PgDB) (i : Nat) (b : UpdateBody) (v w : Json)
    (hbv : b.habilidades = some v) (hbw : b.terna = some w)
    (hv : v.truthy = true) (hw : w.truthy = true)
    (oldS : SqliteRow) (oldP : PgRow)
    (hs : findByKey SqliteRow.id sdb.rows i = some oldS)
    (hp : findByKey PgRow.id pdb.rows i = some oldP)
    (hparse : ∀ r ∈ sdb.rows, (sqliteRowObj r).isSome) :
    (∃ o, getByIdSqlite (updateSqlite sdb i b).2 i = .okObj o ∧
      getKey o ("habilidades") = some (RVal.json v) ∧
      getKey o ("terna") = some (RVal.json w)) ∧
    (∃ o, getByIdPg (updatePg pdb i b).2 i = .okObj o ∧
      getKey o ("habilidades") = some (RVal.json v) ∧
      getKey o ("terna") = some (RVal.json w)) ∧
    (∃ objs, listAllSqlite (updateSqlite sdb i b).2 = .okArr objs ∧
      ∃ o ∈ objs, getKey o ("id") = some (RVal.num i) ∧
        getKey o ("habilidades") = some (RVal.json v) ∧
        getKey o ("terna") = some (RVal.json w)) ∧
    (∃ objs, listAllPg (updatePg pdb i b).2 = .okArr objs ∧
      ∃ o ∈ objs, getKey o ("id") = some (RVal.num i) ∧
        getKey o ("habilidades") = some (RVal.json v) ∧
        getKey o ("terna") = some (RVal.json w)) := by
  have hidS : oldS.id = i := findByKey_eq _ _ _ _ hs
  have hidP : oldP.id = i := findByKey_eq _ _ _ _ hp
  have hrowsS := updateSqlite_rows sdb i b oldS hs
  have hrowsP := updatePg_rows pdb i b oldP hp
  have hcellHx : ∀ x : SqliteRow,
      sqliteJsonCell (sqliteApplyUpdate b x).habilidades = some (RVal.json v) := by
    intro x
    have hc : (sqliteApplyUpdate b x).habilidades = some (stringifyJson v) := by
      show jsonParam b.habilidades = some (stringifyJson v)
      rw [hbv]
      simp [jsonParam, hv]
    rw [hc]
    exact sqliteJsonCell_stringify v
  have hcellTx : ∀ x : SqliteRow,
      sqliteJsonCell (sqliteApplyUpdate b x).terna = some (RVal.json w) := by
    intro x
    have hc : (sqliteApplyUpdate b x).terna = some (stringifyJson w) := by
      show jsonParam b.terna = some (stringifyJson w)
      rw [hbw]
      simp [jsonParam, hw]
    rw [hc]
    exact sqliteJsonCell_stringify w
  have hjsv : jsonStored b.habilidades = some v := by
    rw [hbv]
    simp [jsonStored, hv]
  have hjsw : jsonStored b.terna = some w := by
    rw [hbw]
    simp [jsonStored, hw]
  have hfindS : findByKey SqliteRow.id (updateSqlite sdb i b).2.rows i
      = some (sqliteApplyUpdate b oldS) := by
    rw [hrowsS, findByKey_map_replace SqliteRow.id sdb.rows i (sqliteApplyUpdate b)
      (fun r => rfl), hs]
    simp [hidS]
  have hfindP : findByKey PgRow.id (updatePg pdb i b).2.rows i
      = some (pgApplyUpdate b (jsonStored b.habilidades) (jsonStored b.terna) oldP) := by
    rw [hrowsP, findByKey_map_replace PgRow.id pdb.rows i
      (pgApplyUpdate b (jsonStored b.habilidades) (jsonStored b.terna)) (fun r => rfl), hp]
    simp [hidP]
  have hobjS := sqliteRowObj_eq (sqliteApplyUpdate b oldS) _ _ (hcellHx oldS) (hcellTx oldS)
  refine ⟨?_, ?_, ?_, ?_⟩
  · refine ⟨setKey (setKey (sqliteRowKV (sqliteApplyUpdate b oldS)) ("habilidades")
      (RVal.json v)) ("terna") (RVal.json w), ?_, ?_, ?_⟩
    · unfold getByIdSqlite
      rw [hfindS]
      simp only [hobjS]
    · rw [getKey_hab_habTerna]
    · rw [getKey_terna_habTerna]
  · refine ⟨getByIdPgObj (pgApplyUpdate b (jsonStored b.habilidades) (jsonStored b.terna)
      oldP), ?_, ?_, ?_⟩
    · unfold getByIdPg
      rw [hfindP]
    · rw [getByIdPgObj_hab]
      show some (pgJsonOr (jsonStored b.habilidades)) = _
      rw [hjsv]
      simp [pgJsonOr, hv]
    · rw [getByIdPgObj_terna]
      show some (pgJsonOr (jsonStored b.terna)) = _
      rw [hjsw]
      simp [pgJsonOr, hw]
  · have hall : ∀ r ∈ orderByIdDesc SqliteRow.id (updateSqlite sdb i b).2.rows,
        (sqliteRowObj r).isSome := by
      intro r hr
      have hr2 : r ∈ (updateSqlite sdb i b).2.rows := (orderByIdDesc_perm _ _).mem_iff.mp hr
      rw [hrowsS] at hr2
      obtain ⟨x, hx, hxr⟩ := List.mem_map.mp hr2
      by_cases hxi : (x.id == i) = true
      · rw [← hxr, if_pos hxi, sqliteRowObj_eq _ _ _ (hcellHx x) (hcellTx x)]
        rfl
      · rw [← hxr, if_neg hxi]
        exact hparse x hx
    obtain ⟨objs, hmapM, hf2⟩ := mapM_some_of_forall sqliteRowObj _ hall
    refine ⟨objs, ?_, ?_⟩
    · unfold listAllSqlite
      rw [hmapM]
    · have hmem : sqliteApplyUpdate b oldS ∈ (updateSqlite sdb i b).2.rows := by
        rw [hrowsS]
        apply List.mem_map.mpr
        exact ⟨oldS, findByKey_mem _ _ _ _ hs, by simp [hidS]⟩
      obtain ⟨o, ho, hro⟩ := forall₂_mem_left _ _ _ hf2 _
        ((orderByIdDesc_perm _ _).mem_iff.mpr hmem)
      rw [hobjS] at hro
      have h2 := Option.some.inj hro
      refine ⟨o, ho, ?_, ?_, ?_⟩
      · rw [← h2, getKey_id_habTerna, sqliteRowKV_id,
          show (sqliteApplyUpdate b oldS).id = oldS.id from rfl, hidS]
      · rw [← h2, getKey_hab_habTerna]
      · rw [← h2, getKey_terna_habTerna]
  · refine ⟨(orderByIdDesc PgRow.id (updatePg pdb i b).2.rows).map pgListObj, rfl, ?_⟩
    have hmem : pgApplyUpdate b (jsonStored b.habilidades) (jsonStored b.terna) oldP
        ∈ (updatePg pdb i b).2.rows := by
      rw [hrowsP]
      apply List.mem_map.mpr
      exact ⟨oldP, findByKey_mem _ _ _ _ hp, by simp [hidP]⟩
    refine ⟨pgListObj (pgApplyUpdate b (jsonStored b.habilidades) (jsonStored b.terna) oldP),
      List.mem_map.mpr ⟨_, (orderByIdDesc_perm _ _).mem_iff.mpr hmem, rfl⟩, ?_, ?_, ?_⟩
    · rw [pgListObj_id,
        show (pgApplyUpdate b (jsonStored b.habilidades) (jsonStored b.terna) oldP).id
          = oldP.id from rfl, hidP]
    · rw [pgListObj_hab]
      show some (pgJsonOr (jsonStored b.habilidades)) = _
      rw [hjsv]
      simp [pgJsonOr, hv]
    · rw [pgListObj_terna]
      show some (pgJsonOr (jsonStored b.terna)) = _
      rw [hjsw]
      simp [pgJsonOr, hw]

/-- C2 witness: the round-trip evaluated on concrete one-row tables
with the habilidades example value of the spec. -/
theorem claim_C2_witness :
    (∃ o, getByIdSqlite (updateSqlite ⟨[sampleSqliteRow], 2⟩ 1 sampleUpdateBody).2 1
        = .okObj o ∧
      getKey o ("habilidades") = some (RVal.json sampleHabilidades) ∧
      getKey o ("terna") = some (RVal.json sampleTerna)) ∧
    (∃ o, getByIdPg (updatePg ⟨[samplePgRow], 1⟩ 1 sampleUpdateBody).2 1 = .okObj o ∧
      getKey o ("habilidades") = some (RVal.json sampleHabilidades) ∧
      getKey o ("terna") = some (RVal.json sampleTerna)) ∧
    (∃ objs, listAllSqlite (updateSqlite ⟨[sampleSqliteRow], 2⟩ 1 sampleUpdateBody).2
        = .okArr objs ∧
      ∃ o ∈ objs, getKey o ("id") = some (RVal.num 1) ∧
        getKey o ("habilidades") = some (RVal.json sampleHabilidades) ∧
        getKey o ("terna") = some (RVal.json sampleTerna)) ∧
    (∃ objs, listAllPg (updatePg ⟨[samplePgRow], 1⟩ 1 sampleUpdateBody).2 = .okArr objs ∧
      ∃ o ∈ objs, getKey o ("id") = some (RVal.num 1) ∧
        getKey o ("habilidades") = some (RVal.json sampleHabilidades) ∧
        getKey o ("terna") = some (RVal.json sampleTerna)) :=
  claim_C2 ⟨[sampleSqliteRow], 2⟩ ⟨[samplePgRow], 1⟩ 1 sampleUpdateBody
    sampleHabilidades sampleTerna rfl rfl rfl rfl sampleSqliteRow samplePgRow rfl rfl
    (by
      intro r hr
      rw [List.mem_singleton] at hr
      subst hr
      rfl)
